import Mathlib

/-!
# Memory-fragmentation load generator (`ramcloud_load/load.cpp`)

A shallow embedding of the experiment driver `StartExperiment` and of `main`.

* `size_t` values are natural numbers reduced modulo `2^64`, `uint` values modulo `2^32`.
* The global table `mem` is a total map from slot positions to records; its declared
  length is `memLen`, and accesses are shown to stay below it separately.
* `malloc` is modelled as never failing: it hands out a fresh non-null block handle and
  logs the request; `free` logs the released handle and ignores the null handle.
* The pseudo-random generator is an oracle: every loop receives the list of values its
  distributions return, one entry per iteration.  A loop that is still running when the
  list is exhausted yields `none`.
* The local `cnt` of `StartExperiment` is declared without an initialiser; its starting
  value is a parameter of the model.
-/

namespace MemFrag

/-! ## Constants -/

/-- Bound for phase one (`size10G`). -/
def size10G : Nat := 10*1024*1024*1024

/-- Cumulative allocation budget that stops a churn loop (`size50G`). -/
def size50G : Nat := 50*1024*1024*1024

/-- Minimal size allocated, used to size the bookkeeping table. -/
def minimalSize : Nat := 50

/-- Lower ends of the phase-one size ranges. -/
def formerSizeRangeLower (no : Nat) : Nat :=
  [100, 100, 100, 100, 100, 100, 1000, 50].getD no 0

/-- Upper ends of the phase-one size ranges. -/
def formerSizeRangeUpper (no : Nat) : Nat :=
  [100, 100, 100, 150, 150, 200, 2000, 150].getD no 0

/-- Whether an experiment has a second phase. -/
def hasPhaseTwo (no : Nat) : Bool :=
  [false, true, true, true, true, true, true, true].getD no false

/-- Lower ends of the phase-two size ranges. -/
def latterSizeRangeLower (no : Nat) : Nat :=
  [0, 130, 130, 200, 200, 1000, 1500, 5000].getD no 0

/-- Upper ends of the phase-two size ranges. -/
def latterSizeRangeUpper (no : Nat) : Nat :=
  [0, 130, 130, 250, 250, 2000, 2500, 15000].getD no 0

/-- Declared length of the global table `mem`. -/
def memLen : Nat := size10G / minimalSize + 2

/-! ## Machine arithmetic -/

/-- Width of `size_t`. -/
def W64 : Nat := 2 ^ 64

/-- Width of `uint`. -/
def W32 : Nat := 2 ^ 32

/-- Addition on `size_t`. -/
def add64 (a b : Nat) : Nat := (a + b) % W64

/-- Subtraction on `size_t`: wraps around when the subtrahend is larger. -/
def sub64 (a b : Nat) : Nat := if b ≤ a then a - b else (a + (W64 - b % W64)) % W64

/-! ## Records, allocator and driver state -/

/-- One table entry: `data` is a block handle (`0` is the null pointer), `size` the
logical size recorded for it. -/
structure Record where
  data : Nat
  size : Nat
deriving DecidableEq, Repr

/-- The default constructor `Record()`. -/
def Record.empty : Record := ⟨0, 0⟩

/-- Log of the allocator calls: every `malloc` as (handle, bytes), newest first, and every
non-null handle passed to `free`, newest first. -/
structure Heap where
  allocated : List (Nat × Nat)
  freed : List Nat
deriving DecidableEq, Repr

/-- The allocator before any call. -/
def Heap.init : Heap := ⟨[], []⟩

/-- Call `malloc(bytes)`: returns a fresh handle, never null. -/
def malloc (h : Heap) (bytes : Nat) : Nat × Heap :=
  (h.allocated.length + 1, { h with allocated := (h.allocated.length + 1, bytes) :: h.allocated })

/-- Call `free(p)`: nothing happens for the null handle. -/
def free (h : Heap) (p : Nat) : Heap :=
  if p = 0 then h else { h with freed := p :: h.freed }

/-- What the program prints: the debug banners of `StartExperiment` and the dump of
`/proc/self/status` made by `GetMeminfo` (empty when the file cannot be opened). -/
inductive Output where
  | phaseOne (no : Nat)
  | phaseTwo (no : Nat)
  | meminfo
deriving DecidableEq, Repr

/-- Everything `StartExperiment` and `main` read or write. -/
structure State where
  mem : Nat → Record
  totalUsage : Nat
  footprint : Nat
  cnt : Nat
  heap : Heap
  out : List Output

/-- The process state when `main` starts: the table is value-initialised, nothing
has been allocated, and `cnt0` is the value the local `cnt` happens to hold. -/
def State.init (cnt0 : Nat) : State :=
  { mem := fun _ => Record.empty, totalUsage := 0, footprint := 0, cnt := cnt0,
    heap := Heap.init, out := [] }

/-! ## Loop bodies -/

/-- Body of the fill loop (lines 63-68). -/
def fillStep (size : Nat) (s : State) : State :=
  let r := malloc s.heap ((size * 8) % W32)
  { s with
    mem := Function.update s.mem s.cnt ⟨r.1, size⟩
    cnt := (s.cnt + 1) % W32
    totalUsage := add64 s.totalUsage size
    footprint := add64 s.footprint size
    heap := r.2 }

/-- The four statements that release a slot (lines 77-80, 108-111, 121-124). -/
def freeSlot (pos : Nat) (s : State) : State :=
  { s with
    heap := free s.heap (s.mem pos).data
    totalUsage := sub64 s.totalUsage (s.mem pos).size
    mem := Function.update s.mem pos ⟨0, 0⟩ }

/-- The guarded release of a churn iteration (lines 76-81, 120-125): the guard tests
for the null handle. -/
def guardedFree (pos : Nat) (s : State) : State :=
  if (s.mem pos).data = 0 then freeSlot pos s else s

/-- The four statements that allocate into a slot (lines 83-86, 127-130). -/
def allocSlot (size pos : Nat) (s : State) : State :=
  let r := malloc s.heap ((size * 8) % W32)
  { s with
    mem := Function.update s.mem pos ⟨r.1, size⟩
    totalUsage := add64 s.totalUsage size
    footprint := add64 s.footprint size
    heap := r.2 }

/-- The guarded allocation of a churn iteration (lines 82-87, 126-131). -/
def guardedAlloc (size pos : Nat) (s : State) : State :=
  if add64 s.totalUsage size < size10G then allocSlot size pos s else s

/-- Body of the phase-one churn loop (lines 74-87). -/
def churnStepOne (size pos : Nat) (s : State) : State :=
  guardedAlloc size pos (guardedFree pos s)

/-- Body of the phase-two churn loop (lines 117-131). -/
def churnStepTwo (size pos : Nat) (s : State) : State :=
  if (s.mem pos).data = 0 then s else guardedAlloc size pos (guardedFree pos s)

/-! ## Loops -/

/-- The fill loop (lines 62-69) on the sizes drawn, one per iteration. -/
def fillLoop : List Nat → State → Option State
  | [], s => if s.totalUsage < size10G then none else some s
  | d :: ds, s => if s.totalUsage < size10G then fillLoop ds (fillStep d s) else some s

/-- The phase-one churn loop (lines 73-88) on the (size, position) pairs drawn. -/
def churnLoopOne : List (Nat × Nat) → State → Option State
  | [], s => if s.footprint < size50G then none else some s
  | d :: ds, s =>
    if s.footprint < size50G then churnLoopOne ds (churnStepOne d.1 d.2 s) else some s

/-- The phase-two churn loop (lines 116-132) on the (size, position) pairs drawn. -/
def churnLoopTwo : List (Nat × Nat) → State → Option State
  | [], s => if s.footprint < size50G then none else some s
  | d :: ds, s =>
    if s.footprint < size50G then churnLoopTwo ds (churnStepTwo d.1 d.2 s) else some s

/-- Body of the bulk-delete loop (lines 106-112); the first component is the local
`objectsDeleted`. -/
def bulkDeleteStep (pos : Nat) (st : Nat × State) : Nat × State :=
  if (st.2.mem pos).data = 0 then st else ((st.1 + 1) % W32, freeSlot pos st.2)

/-- The bulk-delete loop (lines 105-113) on the positions drawn; `st.1` is the local
`objectsDeleted`, `toDelete` the local `objectsToDelete`. -/
def bulkDeleteLoop (toDelete : Nat) : List Nat → Nat × State → Option State
  | [], st => if st.1 < toDelete then none else some st.2
  | p :: ps, st =>
    if st.1 < toDelete then bulkDeleteLoop toDelete ps (bulkDeleteStep p st) else some st.2

/-- Upper end `cnt-1` of the slot distribution `randomSelection(0,cnt-1)`, computed
on `uint`. -/
def selUpper (cnt : Nat) : Nat := (cnt + W32 - 1) % W32

/-- The initialisations at the head of `StartExperiment` (lines 51-53): both counters
are zeroed, `cnt` keeps whatever value it holds, the global table is not touched. -/
def enter (s : State) : State := { s with totalUsage := 0, footprint := 0 }

/-- The iterations of the fill loop run one after another, without the loop test. -/
def fillRun (ds : List Nat) (s : State) : State :=
  ds.foldl (fun t d => fillStep d t) s

/-! ## The deletion count -/

/-- The constants `deleteFraction[no]` as the `double` values the compiler stores, each
given as the integer `v * 2^53`: `0`, `0.5 = 2^52 / 2^53`, and the double nearest to
`0.9`, which is `8106479329266893 / 2^53`. -/
def deleteFraction (no : Nat) : Nat :=
  [0, 0, 8106479329266893, 0, 8106479329266893, 4503599627370496, 8106479329266893,
    8106479329266893].getD no 0

/-- Number of low bits a natural number has beyond 53 significant bits (`fuel` bounds
the search). -/
def sigShift : Nat → Nat → Nat
  | 0, _ => 0
  | fuel + 1, n => if n < 2 ^ 53 then 0 else sigShift fuel (n / 2) + 1

/-- Rounding of an exact result to the 53-bit significand of a `double`, to nearest with
ties to even.  Exact results here are products of a 53-bit and a 32-bit integer, so 64
steps of `sigShift` are more than enough. -/
def roundSig53 (n : Nat) : Nat :=
  let sh := sigShift 64 n
  let q := n / 2 ^ sh
  let r := n % 2 ^ sh
  let q' := if 2 ^ sh < 2 * r ∨ (2 * r = 2 ^ sh ∧ q % 2 = 1) then q + 1 else q
  q' * 2 ^ sh

/-- The local `objectsToDelete = floor(deleteFraction[no]*cnt)` (line 102): `cnt` converts
to `double` exactly, the product is rounded once, `floor` and the conversion to `uint`
follow. -/
def objectsToDelete (no cnt : Nat) : Nat :=
  (roundSig53 (deleteFraction no * cnt) / 2 ^ 53) % W32

/-- The deletion fractions as exact rationals (numerator, denominator): `0`, `0.9`, `0.5`. -/
def deleteFractionExact (no : Nat) : Nat × Nat :=
  [(0, 1), (0, 1), (9, 10), (0, 1), (9, 10), (1, 2), (9, 10), (9, 10)].getD no (0, 1)

/-! ## The driver and `main` -/

/-- The values the distributions return in one run, loop by loop. -/
structure Draws where
  fill : List Nat
  churnOne : List (Nat × Nat)
  bulk : List Nat
  churnTwo : List (Nat × Nat)

/-- How a run ends: a loop was still running when its draws ran out, the assertion on
line 91 failed, or the function returned. -/
inductive Outcome where
  | unfinished
  | aborted
  | finished (s : State)

/-- The memory probe `GetMeminfo` (lines 43-48): one dump of the status file. -/
def GetMeminfo (s : State) : State := { s with out := s.out ++ [Output.meminfo] }

/-- Print a debug banner (only in a `DEBUG` build). -/
def banner ( DEBUG : Bool) (o : Output) (s : State) : State :=
  if DEBUG then { s with out := s.out ++ [o] } else s

/-- Phase two of `StartExperiment` (lines 96-133). -/
def phaseTwo ( DEBUG : Bool) (no : Nat) (dr : Draws) (s : State) : Outcome :=
  if hasPhaseTwo no then
    let s1 := { banner DEBUG (Output.phaseTwo no) s with footprint := 0 }
    match bulkDeleteLoop (objectsToDelete no s1.cnt) dr.bulk (0, s1) with
    | none => Outcome.unfinished
    | some s2 =>
      match churnLoopTwo dr.churnTwo s2 with
      | none => Outcome.unfinished
      | some s3 => Outcome.finished s3
  else Outcome.finished s

/-- The driver `StartExperiment` (lines 50-135). -/
def StartExperiment ( DEBUG : Bool) (no : Nat) (dr : Draws) (s : State) : Outcome :=
  match fillLoop dr.fill (banner DEBUG (Output.phaseOne no) (enter s)) with
  | none => Outcome.unfinished
  | some s1 =>
    match churnLoopOne dr.churnOne s1 with
    | none => Outcome.unfinished
    | some s2 =>
      if s2.totalUsage < size10G then
        phaseTwo DEBUG no dr (if DEBUG then GetMeminfo s2 else s2)
      else Outcome.aborted

/-- The body of `main` (lines 137-148) around an arbitrary experiment routine `run`:
`sel` is the integer read from standard input. -/
def mainWith (run : Nat → State → Outcome) (sel : Int) (s : State) : Outcome :=
  if 0 ≤ sel ∧ sel ≤ 7 then
    match run sel.toNat s with
    | Outcome.finished s1 => Outcome.finished (GetMeminfo s1)
    | o => o
  else Outcome.finished (GetMeminfo s)

/-- The program: `main` with `StartExperiment` as the experiment routine, started on
the initial process state. -/
def main ( DEBUG : Bool) (sel : Int) (dr : Draws) (cnt0 : Nat) : Outcome :=
  mainWith (fun no s => StartExperiment DEBUG no dr s) sel (State.init cnt0)

/-- The iterations of the phase-one churn loop run one after another, without the loop
test. -/
def churnRunOne (cs : List (Nat × Nat)) (s : State) : State :=
  cs.foldl (fun t c => churnStepOne c.1 c.2 t) s

/-- The iterations of the phase-two churn loop run one after another, without the loop
test. -/
def churnRunTwo (cs : List (Nat × Nat)) (s : State) : State :=
  cs.foldl (fun t c => churnStepTwo c.1 c.2 t) s

/-- A state used to run the churn loops on a concrete input: the empty table with
`footprint` 50 below the high-water budget. -/
def nearBudget : State := { State.init 3 with footprint := size50G - 50 }

/-- A state with two occupied slots, used to run the bulk-delete loop on a concrete
input. -/
def twoSlots : State := fillStep 50 (fillStep 50 (State.init 0))

/-- A state with one occupied slot of size 100 and `totalUsage = 100`, used to run a
churn iteration on a concrete input. -/
def oneSlot : State := fillStep 100 (State.init 0)

/-- The state `twoSlots` after bulk delete has emptied slot 1 and `footprint` has been
reset, as phase-two churn finds it. -/
def afterDelete : State := { freeSlot 1 twoSlots with footprint := 0 }

/-- A state with slot 0 occupied and both counters at the low-water budget, as the fill
loop may leave them, used to run a churn iteration on a concrete input. -/
def fullSlot : State := { oneSlot with totalUsage := size10G, footprint := size10G }

/-! ## Predicates used in the statements -/

/-- A slot holds a block. -/
def occupied (r : Record) : Prop := r.data ≠ 0

instance (r : Record) : Decidable (occupied r) := by
  unfold occupied; infer_instance

/-- A size lies in the phase-one range of experiment `no`. -/
def InFormer (no d : Nat) : Prop :=
  formerSizeRangeLower no ≤ d ∧ d ≤ formerSizeRangeUpper no

instance (no d : Nat) : Decidable (InFormer no d) := by
  unfold InFormer; infer_instance

/-- A size lies in the phase-two range of experiment `no`. -/
def InLatter (no d : Nat) : Prop :=
  latterSizeRangeLower no ≤ d ∧ d ≤ latterSizeRangeUpper no

instance (no d : Nat) : Decidable (InLatter no d) := by
  unfold InLatter; infer_instance

/-- The positions below `n` whose slot is occupied in `s` and empty in `t`. -/
def freedSlots (s t : State) (n : Nat) : Finset Nat :=
  (Finset.range n).filter (fun i => occupied (s.mem i) ∧ ¬ occupied (t.mem i))

/-- The sum of the sizes recorded in `s` for the slots of `freedSlots s t n`. -/
def freedSize (s t : State) (n : Nat) : Nat :=
  ∑ i in freedSlots s t n, (s.mem i).size

/-- The positions below `n` whose slot is empty in `t`. -/
def emptySlots (t : State) (n : Nat) : Finset Nat :=
  (Finset.range n).filter (fun i => ¬ occupied (t.mem i))

/-- Every slot of `t` that differs from `s` and holds a block records a size within
`[lo, hi]`: the sizes recorded between `s` and `t` lie in that range. -/
def RecordedWithin (lo hi : Nat) (s t : State) : Prop :=
  ∀ i, t.mem i ≠ s.mem i → occupied (t.mem i) → lo ≤ (t.mem i).size ∧ (t.mem i).size ≤ hi

/-- Between `s` and `t` exactly one call of `malloc` has been made. -/
def Allocates (s t : State) : Prop :=
  t.heap.allocated.length = s.heap.allocated.length + 1

instance (s t : State) : Decidable (Allocates s t) := by
  unfold Allocates; infer_instance

/-- What holds of a state the fill loop exits in: the slots below `cnt` are occupied,
`totalUsage` has reached the low-water budget, and `footprint` equals it and is below the
high-water budget. -/
def PostFill (s : State) : Prop :=
  (∀ i, i < s.cnt → occupied (s.mem i)) ∧ size10G ≤ s.totalUsage ∧
    s.footprint = s.totalUsage ∧ s.totalUsage < size50G

/-- The sum of the recorded sizes over the occupied slots below `n`. -/
def occupiedSum (s : State) (n : Nat) : Nat :=
  ∑ i in (Finset.range n).filter (fun i => occupied (s.mem i)), (s.mem i).size

/-- The slot invariant of the data model: a slot has no block exactly when its recorded
size is zero. -/
def SlotInv (s : State) : Prop := ∀ i, (s.mem i).data = 0 ↔ (s.mem i).size = 0

/-- What holds of the driver state between iterations of the fill loop of experiment
`no` when the cursor started at slot 0 of an empty table. -/
structure FillInv (no : Nat) (s : State) : Prop where
  usage_eq : s.footprint = s.totalUsage
  cnt_lo : formerSizeRangeLower no * s.cnt < size10G + formerSizeRangeLower no
  lo_cnt : formerSizeRangeLower no * s.cnt ≤ s.totalUsage
  over : s.totalUsage < size10G + formerSizeRangeUpper no
  hi_cnt : s.totalUsage ≤ formerSizeRangeUpper no * s.cnt
  occ : ∀ i, i < s.cnt → occupied (s.mem i) ∧ InFormer no (s.mem i).size
  emp : ∀ i, s.cnt ≤ i → s.mem i = Record.empty
  sum : s.totalUsage = ∑ i in Finset.range s.cnt, (s.mem i).size

/-! ## Basic facts -/


theorem size10G_eq : size10G = 10737418240 := by norm_num [size10G]

theorem size50G_eq : size50G = 53687091200 := by norm_num [size50G]

theorem memLen_eq : memLen = 214748366 := by norm_num [memLen, size10G, minimalSize]

theorem W64_eq : W64 = 18446744073709551616 := by norm_num [W64]

theorem W32_eq : W32 = 4294967296 := by norm_num [W32]

theorem former_bounds {no : Nat} (h : no < 8) :
    50 ≤ formerSizeRangeLower no ∧ formerSizeRangeLower no ≤ formerSizeRangeUpper no ∧
      formerSizeRangeUpper no ≤ 2000 := by
  interval_cases no <;> simp [formerSizeRangeLower, formerSizeRangeUpper]

theorem add64_small {a b : Nat} (h : a + b < W64) : add64 a b = a + b := by
  unfold add64; exact Nat.mod_eq_of_lt h

/-! ## The fill loop -/

theorem fillInv_init {no : Nat} (h : no < 8) : FillInv no (State.init 0) := by
  have hb := former_bounds h
  refine ⟨rfl, ?_, ?_, ?_, ?_, ?_, ?_, ?_⟩ <;> simp [State.init, size10G_eq]

theorem FillInv.cnt_le {no : Nat} {s : State} (h : no < 8) (hi : FillInv no s) :
    s.cnt ≤ 214748365 := by
  have hb := former_bounds h
  have h1 := hi.cnt_lo
  have h2 : 50 * s.cnt ≤ formerSizeRangeLower no * s.cnt := Nat.mul_le_mul_right _ hb.1
  have h3 : formerSizeRangeLower no * s.cnt + formerSizeRangeLower no
      = formerSizeRangeLower no * (s.cnt + 1) := by ring
  by_contra hc
  have h4 : 214748366 ≤ s.cnt := by omega
  have h5 : formerSizeRangeLower no * 214748366 ≤ formerSizeRangeLower no * s.cnt :=
    Nat.mul_le_mul_left _ h4
  rw [size10G_eq] at h1
  omega

theorem fillInv_step {no d : Nat} {s : State} (h : no < 8) (hd : InFormer no d)
    (hi : FillInv no s) (hlt : s.totalUsage < size10G) : FillInv no (fillStep d s) := by
  have hb := former_bounds h
  have hc := hi.cnt_le h
  obtain ⟨hd1, hd2⟩ := hd
  have hlo := hi.lo_cnt
  have h2 : 50 * s.cnt ≤ formerSizeRangeLower no * s.cnt := Nat.mul_le_mul_right _ hb.1
  have hmul : formerSizeRangeLower no * (s.cnt + 1)
      = formerSizeRangeLower no * s.cnt + formerSizeRangeLower no := by ring
  rw [size10G_eq] at hlt
  have hcnt : (s.cnt + 1) % W32 = s.cnt + 1 := by
    apply Nat.mod_eq_of_lt; rw [W32_eq]; omega
  have htu : add64 s.totalUsage d = s.totalUsage + d := by
    apply add64_small; rw [W64_eq]; omega
  have hfp : add64 s.footprint d = s.totalUsage + d := by
    rw [hi.usage_eq]; exact htu
  have hmul2 : formerSizeRangeUpper no * (s.cnt + 1)
      = formerSizeRangeUpper no * s.cnt + formerSizeRangeUpper no := by ring
  have hhi := hi.hi_cnt
  refine ⟨?_, ?_, ?_, ?_, ?_, ?_, ?_, ?_⟩
  · simp only [fillStep, htu, hfp]
  · simp only [fillStep, hcnt, hmul, size10G_eq]; omega
  · simp only [fillStep, hcnt, hmul, htu]; omega
  · simp only [fillStep, htu, size10G_eq]; omega
  · simp only [fillStep, hcnt, hmul2, htu]; omega
  · intro i hlt'
    simp only [fillStep, hcnt] at hlt' ⊢
    by_cases hic : i = s.cnt
    · subst hic
      rw [Function.update_same]
      exact ⟨by simp [occupied, malloc], hd1, hd2⟩
    · rw [Function.update_noteq hic]
      exact hi.occ i (by omega)
  · intro i hle
    simp only [fillStep, hcnt] at hle ⊢
    rw [Function.update_noteq (by omega)]
    exact hi.emp i (by omega)
  · simp only [fillStep, hcnt, htu]
    rw [Finset.sum_range_succ, Function.update_same]
    have : ∑ i in Finset.range s.cnt, (Function.update s.mem s.cnt ⟨(malloc s.heap (d * 8 % W32)).1, d⟩ i).size
        = ∑ i in Finset.range s.cnt, (s.mem i).size := by
      apply Finset.sum_congr rfl
      intro i hi'
      rw [Function.update_noteq (by simp at hi'; omega)]
    rw [this, ← hi.sum]

/-- The fill loop keeps the invariant and exits only once the budget is reached. -/
theorem fillLoop_inv {no : Nat} (h : no < 8) :
    ∀ (ds : List Nat) (s s' : State), (∀ d ∈ ds, InFormer no d) → FillInv no s →
      fillLoop ds s = some s' → FillInv no s' ∧ size10G ≤ s'.totalUsage := by
  intro ds
  induction ds with
  | nil =>
    intro s s' _ hi hr
    by_cases hlt : s.totalUsage < size10G
    · simp [fillLoop, hlt] at hr
    · simp [fillLoop, hlt] at hr
      subst hr
      exact ⟨hi, by omega⟩
  | cons d ds ih =>
    intro s s' hds hi hr
    by_cases hlt : s.totalUsage < size10G
    · simp only [fillLoop, hlt, if_true] at hr
      exact ih _ _ (fun x hx => hds x (List.mem_cons_of_mem _ hx))
        (fillInv_step h (hds d (List.mem_cons_self _ _)) hi hlt) hr
    · simp [fillLoop, hlt] at hr
      subst hr
      exact ⟨hi, by omega⟩

/-- The fill loop exits when it is given enough draws, whatever the table and the
cursor are. -/
theorem fillLoop_terminates {no : Nat} (h : no < 8) :
    ∀ (ds : List Nat) (s : State), (∀ d ∈ ds, InFormer no d) →
      size10G ≤ s.totalUsage + formerSizeRangeLower no * ds.length →
      ∃ s', fillLoop ds s = some s' := by
  intro ds
  induction ds with
  | nil =>
    intro s _ hlen
    have : ¬ s.totalUsage < size10G := by simp at hlen; omega
    exact ⟨s, by simp [fillLoop, this]⟩
  | cons d ds ih =>
    intro s hds hlen
    by_cases hlt : s.totalUsage < size10G
    · simp only [fillLoop, hlt, if_true]
      have hd := hds d (List.mem_cons_self _ _)
      have hb := former_bounds h
      apply ih _ (fun x hx => hds x (List.mem_cons_of_mem _ hx))
      have htu : add64 s.totalUsage d = s.totalUsage + d := by
        apply add64_small; rw [W64_eq]; rw [size10G_eq] at hlt; have := hd.2; omega
      simp only [fillStep, htu]
      simp only [List.length_cons, Nat.mul_succ] at hlen
      have := hd.1
      omega
    · exact ⟨s, by simp [fillLoop, hlt]⟩

/-- The fill loop keeps `totalUsage` within one draw of the budget and equal to
`footprint`, whatever the table and the cursor are. -/
theorem fillLoop_usage {no : Nat} (h : no < 8) :
    ∀ (ds : List Nat) (s s' : State), (∀ d ∈ ds, InFormer no d) →
      s.footprint = s.totalUsage →
      s.totalUsage < size10G + formerSizeRangeUpper no → fillLoop ds s = some s' →
      size10G ≤ s'.totalUsage ∧ s'.totalUsage < size10G + formerSizeRangeUpper no ∧
        s'.footprint = s'.totalUsage := by
  intro ds
  induction ds with
  | nil =>
    intro s s' _ he hi hr
    by_cases hlt : s.totalUsage < size10G
    · simp [fillLoop, hlt] at hr
    · simp [fillLoop, hlt] at hr
      subst hr
      exact ⟨by omega, hi, he⟩
  | cons d ds ih =>
    intro s s' hds he hi hr
    by_cases hlt : s.totalUsage < size10G
    · simp only [fillLoop, hlt, if_true] at hr
      have hd := hds d (List.mem_cons_self _ _)
      have hb := former_bounds h
      have htu : add64 s.totalUsage d = s.totalUsage + d := by
        apply add64_small; rw [W64_eq]; rw [size10G_eq] at hlt; have := hd.2; omega
      refine ih _ _ (fun x hx => hds x (List.mem_cons_of_mem _ hx)) ?_ ?_ hr
      · simp only [fillStep, he]
      · simp only [fillStep, htu]
        have := hd.2
        omega
    · simp [fillLoop, hlt] at hr
      subst hr
      exact ⟨by omega, hi, he⟩

/-- An exiting fill loop has run some number `k` of iterations, each of them entered
with `totalUsage` below the budget. -/
theorem fillLoop_run :
    ∀ (ds : List Nat) (s s' : State), fillLoop ds s = some s' →
      ∃ k, k ≤ ds.length ∧ s' = fillRun (ds.take k) s ∧
        ∀ j, j < k → (fillRun (ds.take j) s).totalUsage < size10G := by
  intro ds
  induction ds with
  | nil =>
    intro s s' hr
    by_cases hlt : s.totalUsage < size10G
    · simp [fillLoop, hlt] at hr
    · simp [fillLoop, hlt] at hr
      exact ⟨0, by simp, by simp [fillRun, hr], by simp⟩
  | cons d ds ih =>
    intro s s' hr
    by_cases hlt : s.totalUsage < size10G
    · simp only [fillLoop, hlt, if_true] at hr
      obtain ⟨k, hk, hs, hj⟩ := ih _ _ hr
      refine ⟨k + 1, by simp [hk], by simpa [fillRun] using hs, ?_⟩
      intro j hjk
      cases j with
      | zero => simpa [fillRun] using hlt
      | succ j => simpa [fillRun] using hj j (by omega)
    · simp [fillLoop, hlt] at hr
      exact ⟨0, by simp, by simp [fillRun, hr], by simp⟩

/-- The state after `j` guarded fill iterations from the initial state: the invariant
holds and the cursor equals the number of iterations. -/
theorem fillRun_inv {no : Nat} (h : no < 8) (ds : List Nat) (hds : ∀ d ∈ ds, InFormer no d) :
    ∀ j, j ≤ ds.length →
      (∀ i, i < j → (fillRun (ds.take i) (State.init 0)).totalUsage < size10G) →
      FillInv no (fillRun (ds.take j) (State.init 0)) ∧
        (fillRun (ds.take j) (State.init 0)).cnt = j := by
  intro j
  induction j with
  | zero =>
    intro _ _
    simp only [List.take_zero, fillRun, List.foldl_nil]
    exact ⟨fillInv_init h, rfl⟩
  | succ j ih =>
    intro hj hg
    obtain ⟨hinv, hcnt⟩ := ih (by omega) (fun i hi => hg i (by omega))
    have hlt := hg j (by omega)
    have hjl : j < ds.length := by omega
    have htake : ds.take (j + 1) = ds.take j ++ [ds[j]] := by
      rw [List.take_succ, List.getElem?_eq_getElem hjl]; rfl
    have hstep : fillRun (ds.take (j + 1)) (State.init 0)
        = fillStep ds[j] (fillRun (ds.take j) (State.init 0)) := by
      unfold fillRun; rw [htake, List.foldl_append]; rfl
    have hd : InFormer no ds[j] := hds _ (List.getElem_mem _)
    have hinv' := fillInv_step h hd hinv hlt
    refine ⟨by rw [hstep]; exact hinv', ?_⟩
    rw [hstep]
    have hc := hinv.cnt_le h
    have : (fillStep ds[j] (fillRun (ds.take j) (State.init 0))).cnt
        = ((fillRun (ds.take j) (State.init 0)).cnt + 1) % W32 := rfl
    rw [this, hcnt, Nat.mod_eq_of_lt]
    rw [W32_eq]; omega

/-- At the exit of a fill loop started on the initial state with the cursor at 0 the
invariant holds and the budget is reached. -/
theorem fill_exit {no : Nat} (h : no < 8) {fs : List Nat} (hfs : ∀ d ∈ fs, InFormer no d)
    {s : State} (hs : fillLoop fs (State.init 0) = some s) :
    FillInv no s ∧ size10G ≤ s.totalUsage :=
  fillLoop_inv h fs _ _ hfs (fillInv_init h) hs

theorem FillInv.cnt_pos {no : Nat} {s : State} (hi : FillInv no s)
    (hge : size10G ≤ s.totalUsage) : 0 < s.cnt := by
  have := hi.hi_cnt
  rw [size10G_eq] at hge
  rcases Nat.eq_zero_or_pos s.cnt with h0 | h0
  · rw [h0] at this; omega
  · exact h0

theorem selUpper_eq {cnt : Nat} (h0 : 0 < cnt) (h1 : cnt ≤ 214748365) :
    selUpper cnt = cnt - 1 := by
  unfold selUpper
  rw [W32_eq]
  omega

/-- A churn loop whose iterations all leave the state unchanged never exits while
`footprint` is below the budget. -/
theorem churnLoopOne_stuck (s : State) (hfp : s.footprint < size50G) :
    ∀ cs : List (Nat × Nat), (∀ c ∈ cs, churnStepOne c.1 c.2 s = s) →
      churnLoopOne cs s = none := by
  intro cs
  induction cs with
  | nil => intro _; simp [churnLoopOne, hfp]
  | cons c cs ih =>
    intro hcs
    simp only [churnLoopOne, hfp, if_true]
    rw [hcs c (List.mem_cons_self _ _)]
    exact ih (fun x hx => hcs x (List.mem_cons_of_mem _ hx))

theorem replicate_length_ge (n : Nat) : n ≤ (List.replicate n 100).length :=
  (List.length_replicate n 100).ge

/-- The sizes `100, 100, ...` of experiment 0 lie in its range. -/
theorem replicate_inFormer_zero (n : Nat) : ∀ d ∈ List.replicate n 100, InFormer 0 d := by
  intro d hd
  rw [List.eq_of_mem_replicate hd]
  decide

theorem enough_draws {no : Nat} (h : no < 8) {n : Nat} (hn : 214748365 ≤ n) :
    size10G ≤ formerSizeRangeLower no * n := by
  have hb := former_bounds h
  have h1 : 50 * n ≤ formerSizeRangeLower no * n := Nat.mul_le_mul_right _ hb.1
  rw [size10G_eq]
  omega

/-- The fill loop exits when started with `totalUsage = 0` and given enough draws. -/
theorem fill_terminates {no : Nat} (h : no < 8) (fs : List Nat)
    (hfs : ∀ d ∈ fs, InFormer no d) (s : State) (hs : s.totalUsage = 0)
    (hlen : size10G ≤ formerSizeRangeLower no * fs.length) :
    ∃ s', fillLoop fs s = some s' :=
  fillLoop_terminates h fs s hfs (by rw [hs, Nat.zero_add]; exact hlen)

theorem enough_draws_zero {fs : List Nat} (hlen : 107374183 ≤ fs.length) :
    size10G ≤ formerSizeRangeLower 0 * fs.length := by
  simp only [formerSizeRangeLower, List.getD_cons_zero, size10G_eq]
  omega

/-! ## Claims about the fill loop -/

/-- C2 as stated fails: in experiment 0 every draw is 100, the fill loop exits after
107374183 iterations with `totalUsage = 10737418300`, which exceeds `size10G`. -/
theorem fill_exit_exceeds_budget :
    ∃ s, fillLoop (List.replicate 107374183 100) (State.init 0) = some s ∧
      s.totalUsage = 10737418300 ∧ ¬ s.totalUsage ≤ size10G := by
  have h0 : (0 : Nat) < 8 := by decide
  obtain ⟨s, hs⟩ := fill_terminates h0 (List.replicate 107374183 100)
    (replicate_inFormer_zero _) (State.init 0) rfl (enough_draws_zero (replicate_length_ge _))
  obtain ⟨hi, hge⟩ := fill_exit h0 (replicate_inFormer_zero _) hs
  have h1 := hi.lo_cnt
  have h2 := hi.hi_cnt
  have h3 := hi.cnt_lo
  simp only [formerSizeRangeLower, formerSizeRangeUpper, List.getD_cons_zero] at h1 h2 h3
  rw [size10G_eq] at hge h3 ⊢
  exact ⟨s, hs, by omega, by omega⟩

/-- C2 (amended): for every experiment index, every table and cursor at entry and every
sequence of in-range sizes, the fill loop exits (given enough draws), and whenever it
exits `totalUsage` has reached the low-water budget and exceeds it by less than the
upper end of the size range: `size10G ≤ totalUsage < size10G + formerSizeRangeUpper no`. -/
theorem fill_exit_usage_bounds (no : Nat) (h : no < 8) (s0 : State) (fs : List Nat)
    (hfs : ∀ d ∈ fs, InFormer no d) :
    (214748365 ≤ fs.length → ∃ s, fillLoop fs (enter s0) = some s) ∧
      ∀ s, fillLoop fs (enter s0) = some s →
        size10G ≤ s.totalUsage ∧ s.totalUsage < size10G + formerSizeRangeUpper no := by
  refine ⟨fun hlen => fill_terminates h fs hfs (enter s0) rfl (enough_draws h hlen), ?_⟩
  intro s hs
  obtain ⟨h1, h2, _⟩ :=
    fillLoop_usage h fs (enter s0) s hfs rfl (by simp [enter, size10G_eq]) hs
  exact ⟨h1, h2⟩

/-- Experiment 0 on the initial state: the amended C2 at a concrete input. -/
theorem fill_exit_usage_bounds_witness :
    (214748365 ≤ (List.replicate 214748365 100).length →
        ∃ s, fillLoop (List.replicate 214748365 100) (enter (State.init 0)) = some s) ∧
      ∀ s, fillLoop (List.replicate 214748365 100) (enter (State.init 0)) = some s →
        size10G ≤ s.totalUsage ∧ s.totalUsage < size10G + formerSizeRangeUpper 0 :=
  fill_exit_usage_bounds 0 (by decide) (State.init 0) (List.replicate 214748365 100)
    (replicate_inFormer_zero _)

/-- C3: for every experiment index and every sequence of in-range sizes, the fill loop
started with the cursor at 0 exits (given enough draws) after `k` iterations with
`k ≤ ceil(size10G / minimalSize)`; the cursor then equals `k`, the slot written by each
iteration lies below the table length `memLen = size10G/minimalSize + 2`, and so does
every position in `[0, cnt-1]` that churn or bulk delete can pick later. -/
theorem table_capacity_sufficient (no : Nat) (h : no < 8) (fs : List Nat)
    (hfs : ∀ d ∈ fs, InFormer no d) :
    (214748365 ≤ fs.length → ∃ s, fillLoop fs (State.init 0) = some s) ∧
      ∀ s, fillLoop fs (State.init 0) = some s →
        ∃ k, k ≤ (size10G + minimalSize - 1) / minimalSize ∧
          s = fillRun (fs.take k) (State.init 0) ∧ s.cnt = k ∧
          (∀ j, j < k → (fillRun (fs.take j) (State.init 0)).cnt < memLen) ∧
          (∀ pos, pos ≤ selUpper s.cnt → pos < memLen) := by
  refine ⟨fun hlen => fill_terminates h fs hfs (State.init 0) rfl (enough_draws h hlen), ?_⟩
  intro s hs
  obtain ⟨k, hk, hrun, hguard⟩ := fillLoop_run fs _ _ hs
  obtain ⟨hi, hge⟩ := fill_exit h hfs hs
  obtain ⟨_, hcnt⟩ := fillRun_inv h fs hfs k hk hguard
  have hck : s.cnt = k := by rw [hrun]; exact hcnt
  have hc := hi.cnt_le h
  have hpos := hi.cnt_pos hge
  have hceil : (size10G + minimalSize - 1) / minimalSize = 214748365 := by
    norm_num [size10G, minimalSize]
  refine ⟨k, by rw [hceil]; omega, hrun, hck, ?_, ?_⟩
  · intro j hj
    obtain ⟨_, hcj⟩ := fillRun_inv h fs hfs j (by omega)
      (fun i hi' => hguard i (by omega))
    rw [hcj, memLen_eq]
    omega
  · intro pos hp
    rw [selUpper_eq hpos hc] at hp
    rw [memLen_eq]
    omega

/-- Experiment 0 with the fixed size 100: C3 at a concrete input. -/
theorem table_capacity_sufficient_witness :
    (214748365 ≤ (List.replicate 214748365 100).length →
        ∃ s, fillLoop (List.replicate 214748365 100) (State.init 0) = some s) ∧
      ∀ s, fillLoop (List.replicate 214748365 100) (State.init 0) = some s →
        ∃ k, k ≤ (size10G + minimalSize - 1) / minimalSize ∧
          s = fillRun ((List.replicate 214748365 100).take k) (State.init 0) ∧ s.cnt = k ∧
          (∀ j, j < k →
            (fillRun ((List.replicate 214748365 100).take j) (State.init 0)).cnt < memLen) ∧
          (∀ pos, pos ≤ selUpper s.cnt → pos < memLen) :=
  table_capacity_sufficient 0 (by decide) (List.replicate 214748365 100)
    (replicate_inFormer_zero _)

/-- C5: in experiment 0 every draw is 100; the fill loop started with the cursor at 0
exits (given at least 107374183 draws), and at its exit `cnt = ceil(size10G/100)
= 107374183`, exactly the slots `0..cnt-1` are occupied, and each of them records the
size 100. -/
theorem experiment_zero_fill (fs : List Nat) (hfs : ∀ d ∈ fs, InFormer 0 d) :
    (107374183 ≤ fs.length → ∃ s, fillLoop fs (State.init 0) = some s) ∧
      ∀ s, fillLoop fs (State.init 0) = some s →
        s.cnt = (size10G + 100 - 1) / 100 ∧ s.cnt = 107374183 ∧
          ∀ i, (i < s.cnt → occupied (s.mem i) ∧ (s.mem i).size = 100) ∧
            (s.cnt ≤ i → ¬ occupied (s.mem i)) := by
  have h0 : (0 : Nat) < 8 := by decide
  constructor
  · intro hlen
    exact fill_terminates h0 fs hfs (State.init 0) rfl (enough_draws_zero hlen)
  · intro s hs
    obtain ⟨hi, hge⟩ := fill_exit h0 hfs hs
    have h1 := hi.lo_cnt
    have h2 := hi.hi_cnt
    have h3 := hi.cnt_lo
    simp only [formerSizeRangeLower, formerSizeRangeUpper, List.getD_cons_zero] at h1 h2 h3
    have hceil : (size10G + 100 - 1) / 100 = 107374183 := by norm_num [size10G]
    have hover := hi.over
    simp only [formerSizeRangeUpper, List.getD_cons_zero] at hover
    rw [size10G_eq] at hge h3 hover
    have hc : s.cnt = 107374183 := by omega
    refine ⟨by rw [hceil]; exact hc, hc, ?_⟩
    intro i
    constructor
    · intro hlt
      obtain ⟨ho, hin⟩ := hi.occ i hlt
      refine ⟨ho, ?_⟩
      have := hin.1
      have := hin.2
      simp only [formerSizeRangeLower, formerSizeRangeUpper, List.getD_cons_zero] at *
      omega
    · intro hle
      rw [hi.emp i hle]
      simp [occupied, Record.empty]

/-- The draws `100, 100, ...`: C5 at a concrete input. -/
theorem experiment_zero_fill_witness :
    (107374183 ≤ (List.replicate 107374183 100).length →
        ∃ s, fillLoop (List.replicate 107374183 100) (State.init 0) = some s) ∧
      ∀ s, fillLoop (List.replicate 107374183 100) (State.init 0) = some s →
        s.cnt = (size10G + 100 - 1) / 100 ∧ s.cnt = 107374183 ∧
          ∀ i, (i < s.cnt → occupied (s.mem i) ∧ (s.mem i).size = 100) ∧
            (s.cnt ≤ i → ¬ occupied (s.mem i)) :=
  experiment_zero_fill (List.replicate 107374183 100) (replicate_inFormer_zero _)

/-! ## Slots, the guarded release and the guarded allocation -/

theorem SlotInv.update {s t : State} {p : Nat} {r : Record} (hs : SlotInv s)
    (hm : t.mem = Function.update s.mem p r) (hr : r.data = 0 ↔ r.size = 0) : SlotInv t := by
  intro i
  rw [hm]
  by_cases hip : i = p
  · subst hip
    rw [Function.update_same]
    exact hr
  · rw [Function.update_noteq hip]
    exact hs i

theorem slotInv_init (cnt0 : Nat) : SlotInv (State.init cnt0) := by
  intro i
  simp [State.init, Record.empty]

theorem slotInv_freeSlot {s : State} (pos : Nat) (hs : SlotInv s) :
    SlotInv (freeSlot pos s) :=
  hs.update (p := pos) (r := ⟨0, 0⟩) rfl (by simp)

theorem slotInv_guardedFree {s : State} (pos : Nat) (hs : SlotInv s) :
    SlotInv (guardedFree pos s) := by
  unfold guardedFree
  split
  · exact slotInv_freeSlot pos hs
  · exact hs

theorem slotInv_guardedAlloc {s : State} (size pos : Nat) (hsz : size ≠ 0)
    (hs : SlotInv s) : SlotInv (guardedAlloc size pos s) := by
  unfold guardedAlloc
  split
  · exact hs.update (p := pos) (r := ⟨(malloc s.heap ((size * 8) % W32)).1, size⟩) rfl
      (by simp [malloc, hsz])
  · exact hs

theorem latter_pos {no d : Nat} (h : no < 8) (h2 : hasPhaseTwo no = true)
    (hd : InLatter no d) : d ≠ 0 := by
  obtain ⟨h1, _⟩ := hd
  interval_cases no <;> simp [latterSizeRangeLower, hasPhaseTwo] at h1 h2 <;> omega

theorem former_pos {no d : Nat} (h : no < 8) (hd : InFormer no d) : d ≠ 0 := by
  have := former_bounds h
  have := hd.1
  omega

/-- The guarded release does nothing on an empty slot of a table with the slot
invariant. -/
theorem guardedFree_empty {s : State} {pos : Nat} (hinv : SlotInv s)
    (hemp : (s.mem pos).data = 0) : guardedFree pos s = s := by
  have hsz : (s.mem pos).size = 0 := (hinv pos).1 hemp
  have hrec : s.mem pos = ⟨0, 0⟩ := by
    cases hr : s.mem pos with
    | mk d z => rw [hr] at hemp hsz; simp only at hemp hsz; rw [hemp, hsz]
  unfold guardedFree
  rw [if_pos hemp]
  unfold freeSlot
  rw [hemp, hsz]
  have h1 : free s.heap 0 = s.heap := by simp [free]
  have h2 : sub64 s.totalUsage 0 = s.totalUsage := by simp [sub64]
  have h3 : Function.update s.mem pos ⟨0, 0⟩ = s.mem := by
    rw [← hrec]; exact Function.update_eq_self pos s.mem
  rw [h1, h2, h3]

/-- The guarded release never touches `footprint`. -/
theorem guardedFree_footprint (pos : Nat) (s : State) :
    (guardedFree pos s).footprint = s.footprint := by
  unfold guardedFree
  split <;> rfl

/-- The guarded allocation either leaves the state alone or adds the size to
`footprint`, and in the second case leaves `totalUsage` below the low-water mark. -/
theorem guardedAlloc_cases (size pos : Nat) (s : State) :
    guardedAlloc size pos s = s ∨
      ((guardedAlloc size pos s).footprint = add64 s.footprint size ∧
        (guardedAlloc size pos s).totalUsage < size10G) := by
  unfold guardedAlloc
  by_cases hc : add64 s.totalUsage size < size10G
  · right
    rw [if_pos hc]
    exact ⟨rfl, hc⟩
  · left
    rw [if_neg hc]

/-- A phase-one churn iteration either keeps `footprint` or adds the size to it, and in
the second case leaves `totalUsage` below the low-water mark. -/
theorem churnStepOne_cases (size pos : Nat) (s : State) :
    (churnStepOne size pos s).footprint = s.footprint ∨
      ((churnStepOne size pos s).footprint = add64 s.footprint size ∧
        (churnStepOne size pos s).totalUsage < size10G) := by
  unfold churnStepOne
  rcases guardedAlloc_cases size pos (guardedFree pos s) with h | h
  · left; rw [h, guardedFree_footprint]
  · right; rw [guardedFree_footprint] at h; exact h

/-- A phase-two churn iteration either keeps `footprint` or adds the size to it, and in
the second case leaves `totalUsage` below the low-water mark. -/
theorem churnStepTwo_cases (size pos : Nat) (s : State) :
    (churnStepTwo size pos s).footprint = s.footprint ∨
      ((churnStepTwo size pos s).footprint = add64 s.footprint size ∧
        (churnStepTwo size pos s).totalUsage < size10G) := by
  unfold churnStepTwo
  split
  · left; rfl
  · rcases guardedAlloc_cases size pos (guardedFree pos s) with h | h
    · left; rw [h, guardedFree_footprint]
    · right; rw [guardedFree_footprint] at h; exact h

/-- A churn loop exits only with `footprint` at or above the budget (phase one). -/
theorem churnLoopOne_exit :
    ∀ (cs : List (Nat × Nat)) (s t : State), churnLoopOne cs s = some t →
      size50G ≤ t.footprint := by
  intro cs
  induction cs with
  | nil =>
    intro s t hr
    by_cases hlt : s.footprint < size50G
    · simp [churnLoopOne, hlt] at hr
    · simp [churnLoopOne, hlt] at hr
      subst hr; omega
  | cons c cs ih =>
    intro s t hr
    by_cases hlt : s.footprint < size50G
    · simp only [churnLoopOne, hlt, if_true] at hr
      exact ih _ _ hr
    · simp [churnLoopOne, hlt] at hr
      subst hr; omega

/-- A churn loop exits only with `footprint` at or above the budget (phase two). -/
theorem churnLoopTwo_exit :
    ∀ (cs : List (Nat × Nat)) (s t : State), churnLoopTwo cs s = some t →
      size50G ≤ t.footprint := by
  intro cs
  induction cs with
  | nil =>
    intro s t hr
    by_cases hlt : s.footprint < size50G
    · simp [churnLoopTwo, hlt] at hr
    · simp [churnLoopTwo, hlt] at hr
      subst hr; omega
  | cons c cs ih =>
    intro s t hr
    by_cases hlt : s.footprint < size50G
    · simp only [churnLoopTwo, hlt, if_true] at hr
      exact ih _ _ hr
    · simp [churnLoopTwo, hlt] at hr
      subst hr; omega

/-- A phase-one churn loop entered with `footprint` below the budget exits only right
after an allocating iteration, hence with `totalUsage` below the low-water mark. -/
theorem churnLoopOne_usage :
    ∀ (cs : List (Nat × Nat)) (s t : State), s.footprint < size50G →
      churnLoopOne cs s = some t → t.totalUsage < size10G := by
  intro cs
  induction cs with
  | nil =>
    intro s t hlt hr
    simp [churnLoopOne, hlt] at hr
  | cons c cs ih =>
    intro s t hlt hr
    simp only [churnLoopOne, hlt, if_true] at hr
    by_cases hlt2 : (churnStepOne c.1 c.2 s).footprint < size50G
    · exact ih _ _ hlt2 hr
    · have hex : churnLoopOne cs (churnStepOne c.1 c.2 s) = some (churnStepOne c.1 c.2 s) := by
        cases cs <;> simp [churnLoopOne, hlt2]
      rw [hex] at hr
      injection hr with hr
      subst hr
      rcases churnStepOne_cases c.1 c.2 s with h | h
      · rw [h] at hlt2; exact absurd hlt hlt2
      · exact h.2

/-- Phase two has no abort path. -/
theorem phaseTwo_ne_aborted ( DEBUG : Bool) (no : Nat) (dr : Draws) (s : State) :
    phaseTwo DEBUG no dr s ≠ Outcome.aborted := by
  unfold phaseTwo
  split
  · dsimp only
    split
    · exact fun hh => Outcome.noConfusion hh
    · split <;> exact fun hh => Outcome.noConfusion hh
  · exact fun hh => Outcome.noConfusion hh

/-! ## The deletion count: the `double` product against the exact fraction -/

theorem sigShift_le : ∀ (fuel j n : Nat), n < 2 ^ (53 + j) → sigShift fuel n ≤ j := by
  intro fuel
  induction fuel with
  | zero => intro j n _; simp [sigShift]
  | succ f ih =>
    intro j n hn
    unfold sigShift
    split
    · omega
    · rename_i hge
      cases j with
      | zero => exact absurd (by simpa using hn) hge
      | succ j =>
        have : n / 2 < 2 ^ (53 + j) := by
          rw [Nat.div_lt_iff_lt_mul (by norm_num)]
          calc n < 2 ^ (53 + (j + 1)) := hn
            _ = 2 ^ (53 + j) * 2 := by ring
        have := ih j (n / 2) this
        omega

/-- Rounding stays above every multiple of `2^53` below the argument and adds less than
`2^32`, for arguments below `2^85`. -/
theorem roundSig53_bounds (n : Nat) (hn : n < 2 ^ 85) :
    (∀ k, k * 2 ^ 53 ≤ n → k * 2 ^ 53 ≤ roundSig53 n) ∧ roundSig53 n ≤ n + 2 ^ 32 := by
  have hsh : sigShift 64 n ≤ 32 := sigShift_le 64 32 n (by simpa using hn)
  generalize hshe : sigShift 64 n = sh at hsh
  have hpow : 2 ^ sh ≤ 2 ^ 32 := Nat.pow_le_pow_right (by norm_num) hsh
  have hpos : 0 < 2 ^ sh := Nat.pow_pos (by norm_num)
  have hq : n / 2 ^ sh * 2 ^ sh ≤ n := Nat.div_mul_le_self n (2 ^ sh)
  have hR : roundSig53 n = (if 2 ^ sh < 2 * (n % 2 ^ sh) ∨
      (2 * (n % 2 ^ sh) = 2 ^ sh ∧ n / 2 ^ sh % 2 = 1) then n / 2 ^ sh + 1 else n / 2 ^ sh)
        * 2 ^ sh := by
    unfold roundSig53
    simp only [hshe]
  constructor
  · intro k hk
    have hdvd : 2 ^ sh ∣ k * 2 ^ 53 :=
      Dvd.dvd.mul_left (Nat.pow_dvd_pow 2 (by omega)) k
    obtain ⟨m, hm⟩ := hdvd
    have hmq : m ≤ n / 2 ^ sh := by
      rw [Nat.le_div_iff_mul_le hpos, Nat.mul_comm, ← hm]
      exact hk
    rw [hR, hm, Nat.mul_comm (2 ^ sh) m]
    apply Nat.mul_le_mul_right
    split <;> omega
  · rw [hR]
    split
    · rw [Nat.add_mul, Nat.one_mul]; omega
    · omega

theorem objectsToDelete_eq (no cnt : Nat) (h : no < 8) (hc : cnt < W32) :
    objectsToDelete no cnt = (deleteFractionExact no).1 * cnt / (deleteFractionExact no).2 := by
  rw [W32_eq] at hc
  have hn : deleteFraction no * cnt < 2 ^ 85 := by
    have : deleteFraction no ≤ 8106479329266893 := by
      interval_cases no <;> simp [deleteFraction]
    calc deleteFraction no * cnt ≤ 8106479329266893 * cnt := Nat.mul_le_mul_right _ this
      _ < 2 ^ 85 := by norm_num; omega
  obtain ⟨hlo, hhi⟩ := roundSig53_bounds _ hn
  have key : ∀ k, k * 2 ^ 53 ≤ deleteFraction no * cnt →
      deleteFraction no * cnt + 2 ^ 32 < (k + 1) * 2 ^ 53 → k < 4294967296 →
      objectsToDelete no cnt = k := by
    intro k h1 h2 h3
    have := hlo k h1
    unfold objectsToDelete
    have hdiv : roundSig53 (deleteFraction no * cnt) / 2 ^ 53 = k := by
      apply Nat.div_eq_of_lt_le
      · exact this
      · omega
    rw [hdiv, W32_eq]
    exact Nat.mod_eq_of_lt h3
  interval_cases no <;>
    simp only [deleteFraction, deleteFractionExact, List.getD_cons_zero, List.getD_cons_succ]
      at key ⊢ <;>
    norm_num at key ⊢ <;>
    apply key <;> omega

/-! ## The bulk-delete loop -/

theorem sub64_modEq (a b : Nat) : sub64 a b + b ≡ a [MOD W64] := by
  unfold sub64
  split
  · rename_i h
    rw [Nat.sub_add_cancel h]
  · unfold Nat.ModEq
    have hW : 0 < W64 := by rw [W64_eq]; norm_num
    have hlt : b % W64 < W64 := Nat.mod_lt _ hW
    have hb : b = W64 * (b / W64) + b % W64 := (Nat.div_add_mod b W64).symm
    rw [Nat.add_mod, Nat.mod_mod, ← Nat.add_mod]
    have : a + (W64 - b % W64) + b = a + W64 * (b / W64 + 1) := by
      rw [Nat.mul_add, Nat.mul_one]
      omega
    rw [this, Nat.add_mul_mod_self_left]

theorem sub64_exact {a b : Nat} (h : b ≤ a) : sub64 a b = a - b := by
  unfold sub64
  rw [if_pos h]

theorem freedSlots_self (s : State) (c : Nat) : freedSlots s s c = ∅ := by
  ext i
  simp [freedSlots]

theorem freeSlot_mem_same (p : Nat) (s : State) : (freeSlot p s).mem p = ⟨0, 0⟩ := by
  simp [freeSlot]

theorem freeSlot_mem_other {p i : Nat} (s : State) (hi : i ≠ p) :
    (freeSlot p s).mem i = s.mem i := by
  simp [freeSlot, Function.update_noteq hi]

/-- Releasing the occupied slot `p` first adds exactly `p` to the slots freed overall. -/
theorem freedSlots_step {s t : State} {p c : Nat} (hp : p < c) (hocc : occupied (s.mem p))
    (ha : ∀ i, t.mem i = (freeSlot p s).mem i ∨
      (occupied ((freeSlot p s).mem i) ∧ t.mem i = ⟨0, 0⟩ ∧ i < c)) :
    freedSlots s t c = insert p (freedSlots (freeSlot p s) t c) ∧
      p ∉ freedSlots (freeSlot p s) t c ∧
      freedSize s t c = (s.mem p).size + freedSize (freeSlot p s) t c := by
  have htp : t.mem p = ⟨0, 0⟩ := by
    rcases ha p with h | h
    · rw [h, freeSlot_mem_same]
    · exact h.2.1
  have hins : freedSlots s t c = insert p (freedSlots (freeSlot p s) t c) := by
    ext i
    simp only [freedSlots, Finset.mem_filter, Finset.mem_range, Finset.mem_insert]
    by_cases hip : i = p
    · subst hip
      have hocc' : (s.mem i).data ≠ 0 := hocc
      simp [hp, hocc', htp, occupied]
    · rw [freeSlot_mem_other s hip]
      simp [hip]
  have hnot : p ∉ freedSlots (freeSlot p s) t c := by
    simp [freedSlots, freeSlot_mem_same, occupied]
  refine ⟨hins, hnot, ?_⟩
  unfold freedSize
  rw [hins, Finset.sum_insert hnot]
  congr 1
  apply Finset.sum_congr rfl
  intro i hi
  have hip : i ≠ p := fun h => hnot (h ▸ hi)
  rw [freeSlot_mem_other s hip]

/-- What an exiting bulk-delete loop has done, in terms of the state `st.2` and the
count `st.1` it was entered with. -/
theorem bulkDeleteLoop_spec (n c : Nat) (hn : n < W32) :
    ∀ (ps : List Nat) (st : Nat × State) (t : State), (∀ p ∈ ps, p < c) → st.1 ≤ n →
      bulkDeleteLoop n ps st = some t →
      (∀ i, t.mem i = st.2.mem i ∨ (occupied (st.2.mem i) ∧ t.mem i = ⟨0, 0⟩ ∧ i < c)) ∧
      (freedSlots st.2 t c).card + st.1 = n ∧
      (t.totalUsage + freedSize st.2 t c ≡ st.2.totalUsage [MOD W64]) ∧
      (freedSize st.2 t c ≤ st.2.totalUsage →
        t.totalUsage + freedSize st.2 t c = st.2.totalUsage) ∧
      t.cnt = st.2.cnt ∧ t.footprint = st.2.footprint := by
  have hexit : ∀ (st : Nat × State) (t : State), st.1 ≤ n → ¬ st.1 < n → st.2 = t →
      (∀ i, t.mem i = st.2.mem i ∨ (occupied (st.2.mem i) ∧ t.mem i = ⟨0, 0⟩ ∧ i < c)) ∧
      (freedSlots st.2 t c).card + st.1 = n ∧
      (t.totalUsage + freedSize st.2 t c ≡ st.2.totalUsage [MOD W64]) ∧
      (freedSize st.2 t c ≤ st.2.totalUsage →
        t.totalUsage + freedSize st.2 t c = st.2.totalUsage) ∧
      t.cnt = st.2.cnt ∧ t.footprint = st.2.footprint := by
    intro st t hle hlt heq
    subst heq
    have hz : freedSize st.2 st.2 c = 0 := by simp [freedSize, freedSlots_self]
    refine ⟨fun i => Or.inl rfl, ?_, ?_, ?_, rfl, rfl⟩
    · rw [freedSlots_self]; simp; omega
    · rw [hz]; exact Nat.ModEq.refl _
    · intro _; rw [hz]; rfl
  intro ps
  induction ps with
  | nil =>
    intro st t _ hle hr
    by_cases hlt : st.1 < n
    · simp [bulkDeleteLoop, hlt] at hr
    · simp [bulkDeleteLoop, hlt] at hr
      exact hexit st t hle hlt hr
  | cons p ps ih =>
    intro st t hps hle hr
    by_cases hlt : st.1 < n
    · simp only [bulkDeleteLoop, hlt, if_true] at hr
      have hps' : ∀ q ∈ ps, q < c := fun q hq => hps q (List.mem_cons_of_mem _ hq)
      have hp : p < c := hps p (List.mem_cons_self _ _)
      by_cases hd : (st.2.mem p).data = 0
      · have hstep : bulkDeleteStep p st = st := by
          unfold bulkDeleteStep; rw [if_pos hd]
        rw [hstep] at hr
        exact ih st t hps' hle hr
      · have hstep : bulkDeleteStep p st = (st.1 + 1, freeSlot p st.2) := by
          unfold bulkDeleteStep
          rw [if_neg hd, Nat.mod_eq_of_lt (by omega)]
        rw [hstep] at hr
        obtain ⟨ha, hb, hc, hc', hcnt, hfp⟩ := ih _ t hps' (by simp only; omega) hr
        simp only at ha hb hc hc' hcnt hfp
        obtain ⟨hins, hnot, hsum⟩ := freedSlots_step hp hd ha
        have htu : (freeSlot p st.2).totalUsage = sub64 st.2.totalUsage (st.2.mem p).size := rfl
        refine ⟨?_, ?_, ?_, ?_, hcnt, hfp⟩
        · intro i
          by_cases hip : i = p
          · subst hip
            right
            refine ⟨hd, ?_, hp⟩
            rcases ha i with h | h
            · rw [h, freeSlot_mem_same]
            · exact h.2.1
          · rw [← freeSlot_mem_other st.2 hip]
            exact ha i
        · rw [hins, Finset.card_insert_of_not_mem hnot]
          omega
        · rw [hsum, htu] at *
          have h1 := (hc.add_right (st.2.mem p).size).trans (sub64_modEq _ _)
          have : t.totalUsage + ((st.2.mem p).size + freedSize (freeSlot p st.2) t c)
              = t.totalUsage + freedSize (freeSlot p st.2) t c + (st.2.mem p).size := by
            omega
          rw [this]
          exact h1
        · intro hle'
          rw [hsum] at hle' ⊢
          have hz : (st.2.mem p).size ≤ st.2.totalUsage := by omega
          rw [htu, sub64_exact hz] at hc'
          have := hc' (by omega)
          omega
    · simp [bulkDeleteLoop, hlt] at hr
      exact hexit st t hle hlt hr

/-- The fill loop keeps the slot invariant, whatever the table and the cursor are. -/
theorem fillLoop_slotInv {no : Nat} (h : no < 8) :
    ∀ (ds : List Nat) (s t : State), (∀ d ∈ ds, InFormer no d) → SlotInv s →
      fillLoop ds s = some t → SlotInv t := by
  intro ds
  induction ds with
  | nil =>
    intro s t _ hi hr
    by_cases hlt : s.totalUsage < size10G
    · simp [fillLoop, hlt] at hr
    · simp [fillLoop, hlt] at hr
      subst hr
      exact hi
  | cons d ds ih =>
    intro s t hds hi hr
    by_cases hlt : s.totalUsage < size10G
    · simp only [fillLoop, hlt, if_true] at hr
      refine ih _ _ (fun x hx => hds x (List.mem_cons_of_mem _ hx)) ?_ hr
      exact hi.update (p := s.cnt) (r := ⟨(malloc s.heap ((d * 8) % W32)).1, d⟩) rfl
        (by simp [malloc, former_pos h (hds d (List.mem_cons_self _ _))])
    · simp [fillLoop, hlt] at hr
      subst hr
      exact hi

/-- With the slot invariant and `totalUsage` at or above the low-water mark, a phase-one
churn iteration changes nothing: an occupied slot is not released, releasing an empty
slot is void, and the allocation test fails. -/
theorem churnStepOne_stuck {s : State} (hinv : SlotInv s) (hge : size10G ≤ s.totalUsage)
    {size : Nat} (hsz : s.totalUsage + size < W64) (pos : Nat) :
    churnStepOne size pos s = s := by
  have hg : guardedFree pos s = s := by
    by_cases hd : (s.mem pos).data = 0
    · exact guardedFree_empty hinv hd
    · unfold guardedFree
      rw [if_neg hd]
  unfold churnStepOne guardedAlloc
  rw [hg, add64_small hsz, if_neg (by omega)]

/-! ## Claims about `main`, the slot invariant and the churn loops -/

/-- C1 (the code does not do what the claim says): for every experiment index, every
value of the cursor at entry and every sequence of in-range sizes the fill loop exits, in
a state with `footprint` below `size50G`, and from that state the phase-one churn loop
never exits, whatever in-range sizes and whatever positions are drawn and however many
of them. -/
theorem churn_one_never_exits (no : Nat) (h : no < 8) (cnt0 : Nat) (fs : List Nat)
    (hfs : ∀ d ∈ fs, InFormer no d) (hlen : 214748365 ≤ fs.length) :
    ∃ s, fillLoop fs (State.init cnt0) = some s ∧ s.footprint < size50G ∧
      ∀ cs : List (Nat × Nat), (∀ c ∈ cs, InFormer no c.1) → churnLoopOne cs s = none := by
  obtain ⟨s, hs⟩ := fill_terminates h fs hfs (State.init cnt0) rfl (enough_draws h hlen)
  have hb := former_bounds h
  obtain ⟨hge, hlt, hfp⟩ := fillLoop_usage h fs (State.init cnt0) s hfs rfl
    (by simp [State.init, size10G_eq]) hs
  have hinv := fillLoop_slotInv h fs _ _ hfs (slotInv_init cnt0) hs
  rw [size10G_eq] at hlt
  have hfp' : s.footprint < size50G := by
    rw [hfp, size50G_eq]
    omega
  refine ⟨s, hs, hfp', ?_⟩
  intro cs hcs
  refine churnLoopOne_stuck s hfp' cs (fun c hc => churnStepOne_stuck hinv hge ?_ c.2)
  have := (hcs c hc).2
  rw [W64_eq]
  omega

/-- Experiment 0 with the fixed size 100: the run of C1 at a concrete input. -/
theorem churn_one_never_exits_witness :
    ∃ s, fillLoop (List.replicate 214748365 100) (State.init 0) = some s ∧
      s.footprint < size50G ∧
      ∀ cs : List (Nat × Nat), (∀ c ∈ cs, InFormer 0 c.1) → churnLoopOne cs s = none :=
  churn_one_never_exits 0 (by decide) 0 (List.replicate 214748365 100)
    (replicate_inFormer_zero _) (replicate_length_ge _)

/-- C6: for a selector outside `[0,7]` the result of `main` does not depend on the
experiment routine (it is not called): the program finishes with no allocator call made,
every table slot empty and exactly one probe as its whole output.  For a selector in
`[0,7]` the experiment routine is applied once, to that index and the initial state, and
the one probe of `main` follows it as the last output. -/
theorem selector_dispatch ( DEBUG : Bool) (dr : Draws) (cnt0 : Nat) (sel : Int) :
    (¬ (0 ≤ sel ∧ sel ≤ 7) →
      (∀ run, mainWith run sel (State.init cnt0)
          = Outcome.finished (GetMeminfo (State.init cnt0))) ∧
      ∃ s, main DEBUG sel dr cnt0 = Outcome.finished s ∧ s.heap = Heap.init ∧
        (∀ i, s.mem i = Record.empty) ∧ s.out = [Output.meminfo]) ∧
    ((0 ≤ sel ∧ sel ≤ 7) →
      (∀ run, mainWith run sel (State.init cnt0)
          = match run sel.toNat (State.init cnt0) with
            | Outcome.finished s1 => Outcome.finished (GetMeminfo s1)
            | o => o) ∧
      main DEBUG sel dr cnt0
        = (match StartExperiment DEBUG sel.toNat dr (State.init cnt0) with
          | Outcome.finished s1 => Outcome.finished (GetMeminfo s1)
          | o => o) ∧
      ∀ s1, (GetMeminfo s1).out = s1.out ++ [Output.meminfo]) := by
  constructor
  · intro hsel
    refine ⟨fun run => by unfold mainWith; rw [if_neg hsel], GetMeminfo (State.init cnt0), ?_,
      rfl, fun _ => rfl, rfl⟩
    unfold main mainWith
    rw [if_neg hsel]
  · intro hsel
    refine ⟨fun run => by unfold mainWith; rw [if_pos hsel], ?_, fun _ => rfl⟩
    unfold main mainWith
    rw [if_pos hsel]

/-- The selectors 99 and 3: C6 at concrete inputs. -/
theorem selector_dispatch_witness :
    (∃ s, main false 99 ⟨[], [], [], []⟩ 0 = Outcome.finished s ∧ s.heap = Heap.init ∧
        (∀ i, s.mem i = Record.empty) ∧ s.out = [Output.meminfo]) ∧
      main false 3 ⟨[], [], [], []⟩ 0
        = (match StartExperiment false (3 : Int).toNat ⟨[], [], [], []⟩ (State.init 0) with
          | Outcome.finished s1 => Outcome.finished (GetMeminfo s1)
          | o => o) :=
  ⟨((selector_dispatch false ⟨[], [], [], []⟩ 0 99).1 (by decide)).2,
    ((selector_dispatch false ⟨[], [], [], []⟩ 0 3).2 (by decide)).2.1⟩

/-- C7: the slot invariant (a slot has no block exactly when its size is 0) holds for the
initial table and is preserved by a fill iteration and a phase-one churn iteration of
every experiment 0..7 with a size from the former range, by a bulk-delete iteration, and
by a phase-two churn iteration of every experiment that has a phase two with a size from
the latter range, at every position.  Allocation returns a non-null block. -/
theorem slot_invariant_preserved :
    (∀ cnt0, SlotInv (State.init cnt0)) ∧
    (∀ no size s, no < 8 → InFormer no size → SlotInv s → SlotInv (fillStep size s)) ∧
    (∀ no size pos s, no < 8 → InFormer no size → SlotInv s →
      SlotInv (churnStepOne size pos s)) ∧
    (∀ pos (st : Nat × State), SlotInv st.2 → SlotInv (bulkDeleteStep pos st).2) ∧
    (∀ no size pos s, no < 8 → hasPhaseTwo no = true → InLatter no size → SlotInv s →
      SlotInv (churnStepTwo size pos s)) := by
  refine ⟨slotInv_init, ?_, ?_, ?_, ?_⟩
  · intro no size s h hd hs
    exact hs.update (p := s.cnt) (r := ⟨(malloc s.heap ((size * 8) % W32)).1, size⟩) rfl
      (by simp [malloc, former_pos h hd])
  · intro no size pos s h hd hs
    exact slotInv_guardedAlloc size pos (former_pos h hd) (slotInv_guardedFree pos hs)
  · intro pos st hs
    unfold bulkDeleteStep
    split
    · exact hs
    · exact slotInv_freeSlot pos hs
  · intro no size pos s h h2 hd hs
    unfold churnStepTwo
    split
    · exact hs
    · exact slotInv_guardedAlloc size pos (latter_pos h h2 hd) (slotInv_guardedFree pos hs)

/-- One iteration of each kind from the initial table: C7 at concrete inputs. -/
theorem slot_invariant_preserved_witness :
    SlotInv (fillStep 100 (State.init 0)) ∧
      SlotInv (churnStepOne 100 0 (State.init 0)) ∧
      SlotInv (bulkDeleteStep 0 (0, fillStep 100 (State.init 0))).2 ∧
      SlotInv (churnStepTwo 5000 0 (fillStep 100 (State.init 0))) :=
  ⟨slot_invariant_preserved.2.1 0 100 _ (by decide) (by decide) (slot_invariant_preserved.1 0),
    slot_invariant_preserved.2.2.1 0 100 0 _ (by decide) (by decide)
      (slot_invariant_preserved.1 0),
    slot_invariant_preserved.2.2.2.1 0 (0, fillStep 100 (State.init 0))
      (slot_invariant_preserved.2.1 0 100 _ (by decide) (by decide)
        (slot_invariant_preserved.1 0)),
    slot_invariant_preserved.2.2.2.2 7 5000 0 _ (by decide) (by decide) (by decide)
      (slot_invariant_preserved.2.1 0 100 _ (by decide) (by decide)
        (slot_invariant_preserved.1 0))⟩

/-- C8: the assertion on line 91 never fails.  For every experiment index, every cursor
value at entry and every draws with in-range fill sizes, `StartExperiment` started on the
initial state does not abort; and whenever the phase-one churn loop is entered with
`footprint` below `size50G` (as it is after the fill loop) and exits, it exits with
`totalUsage < size10G`. -/
theorem assertion_never_fails ( DEBUG : Bool) (no : Nat) (h : no < 8) (cnt0 : Nat)
    (dr : Draws) (hfs : ∀ d ∈ dr.fill, InFormer no d) :
    StartExperiment DEBUG no dr (State.init cnt0) ≠ Outcome.aborted ∧
      (∀ s, fillLoop dr.fill (banner DEBUG (Output.phaseOne no) (enter (State.init cnt0)))
          = some s → s.footprint < size50G) ∧
      ∀ (cs : List (Nat × Nat)) (s t : State), s.footprint < size50G →
        churnLoopOne cs s = some t → t.totalUsage < size10G := by
  have hb := former_bounds h
  have hfill : ∀ s, fillLoop dr.fill (banner DEBUG (Output.phaseOne no)
      (enter (State.init cnt0))) = some s → s.footprint < size50G := by
    intro s hs
    have h0 : (banner DEBUG (Output.phaseOne no) (enter (State.init cnt0))).totalUsage = 0 := by
      unfold banner; split <;> rfl
    have h1 : (banner DEBUG (Output.phaseOne no) (enter (State.init cnt0))).footprint = 0 := by
      unfold banner; split <;> rfl
    obtain ⟨_, h2, h3⟩ := fillLoop_usage h dr.fill _ s hfs (by rw [h0, h1])
      (by rw [h0, size10G_eq]; omega) hs
    rw [h3, size50G_eq]
    rw [size10G_eq] at h2
    omega
  refine ⟨?_, hfill, churnLoopOne_usage⟩
  unfold StartExperiment
  cases hf : fillLoop dr.fill (banner DEBUG (Output.phaseOne no) (enter (State.init cnt0))) with
  | none => simp
  | some s1 =>
    dsimp only
    cases hc : churnLoopOne dr.churnOne s1 with
    | none => simp
    | some s2 =>
      have hlt := churnLoopOne_usage dr.churnOne s1 s2 (hfill s1 hf) hc
      dsimp only
      rw [if_pos hlt]
      exact phaseTwo_ne_aborted _ _ _ _

/-- Experiment 0 for the driver, and one allocating iteration from `nearBudget` for the
loop: C8 at concrete inputs. -/
theorem assertion_never_fails_witness :
    StartExperiment false 0 ⟨[100, 100], [], [], []⟩ (State.init 0) ≠ Outcome.aborted ∧
      (churnStepOne 100 0 nearBudget).totalUsage < size10G :=
  ⟨(assertion_never_fails false 0 (by decide) 0 ⟨[100, 100], [], [], []⟩
      (by decide)).1,
    (assertion_never_fails false 0 (by decide) 0 ⟨[100, 100], [], [], []⟩
      (by decide)).2.2 [(100, 0)] nearBudget (churnStepOne 100 0 nearBudget)
      (by decide) rfl⟩

/-- C9: on a table with the slot invariant, the guarded release of a churn iteration
applied to an empty slot changes nothing (`totalUsage`, `footprint`, the table and the
allocator are all as before), and applying it twice is the same as applying it once. -/
theorem free_empty_slot_noop (s : State) (pos : Nat) (hinv : SlotInv s)
    (hemp : (s.mem pos).data = 0) :
    guardedFree pos s = s ∧ (guardedFree pos s).totalUsage = s.totalUsage ∧
      (guardedFree pos s).footprint = s.footprint ∧ (guardedFree pos s).mem = s.mem ∧
      (guardedFree pos s).heap = s.heap ∧
      guardedFree pos (guardedFree pos s) = guardedFree pos s := by
  have h := guardedFree_empty hinv hemp
  refine ⟨h, ?_, ?_, ?_, ?_, ?_⟩ <;> rw [h]
  exact h

/-- Slot 5 of the initial table: C9 at a concrete input. -/
theorem free_empty_slot_noop_witness :
    guardedFree 5 (State.init 0) = State.init 0 ∧
      (guardedFree 5 (State.init 0)).totalUsage = (State.init 0).totalUsage ∧
      (guardedFree 5 (State.init 0)).footprint = (State.init 0).footprint ∧
      (guardedFree 5 (State.init 0)).mem = (State.init 0).mem ∧
      (guardedFree 5 (State.init 0)).heap = (State.init 0).heap ∧
      guardedFree 5 (guardedFree 5 (State.init 0)) = guardedFree 5 (State.init 0) :=
  free_empty_slot_noop (State.init 0) 5 (slotInv_init 0) rfl

/-- C10: a churn iteration of either phase, executed under the loop test
`footprint < size50G` with a `uint` size, leaves `footprint` unchanged or increases it
by exactly the size drawn, so never decreases it; and a churn loop of either phase that
exits does so in a state with `footprint ≥ size50G`. -/
theorem footprint_monotone (s : State) (size pos : Nat) (hguard : s.footprint < size50G)
    (hsize : size < W32) :
    ((churnStepOne size pos s).footprint = s.footprint ∨
        (churnStepOne size pos s).footprint = s.footprint + size) ∧
      ((churnStepTwo size pos s).footprint = s.footprint ∨
        (churnStepTwo size pos s).footprint = s.footprint + size) ∧
      s.footprint ≤ (churnStepOne size pos s).footprint ∧
      s.footprint ≤ (churnStepTwo size pos s).footprint ∧
      (∀ (cs : List (Nat × Nat)) (s0 t : State), churnLoopOne cs s0 = some t →
        size50G ≤ t.footprint) ∧
      (∀ (cs : List (Nat × Nat)) (s0 t : State), churnLoopTwo cs s0 = some t →
        size50G ≤ t.footprint) := by
  have hadd : add64 s.footprint size = s.footprint + size := by
    apply add64_small
    rw [W64_eq]; rw [size50G_eq] at hguard; rw [W32_eq] at hsize
    omega
  have h1 : (churnStepOne size pos s).footprint = s.footprint ∨
      (churnStepOne size pos s).footprint = s.footprint + size := by
    rcases churnStepOne_cases size pos s with h | h
    · exact Or.inl h
    · exact Or.inr (by rw [h.1, hadd])
  have h2 : (churnStepTwo size pos s).footprint = s.footprint ∨
      (churnStepTwo size pos s).footprint = s.footprint + size := by
    rcases churnStepTwo_cases size pos s with h | h
    · exact Or.inl h
    · exact Or.inr (by rw [h.1, hadd])
  refine ⟨h1, h2, ?_, ?_, churnLoopOne_exit, churnLoopTwo_exit⟩
  · rcases h1 with h | h <;> omega
  · rcases h2 with h | h <;> omega

/-- One allocating iteration from `nearBudget`, after which both loops exit: C10 at a
concrete input. -/
theorem footprint_monotone_witness :
    (churnStepOne 100 0 nearBudget).footprint = nearBudget.footprint + 100 ∧
      size50G ≤ (churnStepOne 100 0 nearBudget).footprint ∧
      (churnStepTwo 100 0 nearBudget).footprint = nearBudget.footprint :=
  ⟨((footprint_monotone nearBudget 100 0 (by decide) (by decide)).1).resolve_left
      (by decide),
    (footprint_monotone nearBudget 100 0 (by decide) (by decide)).2.2.2.2.1 [(100, 0)]
      nearBudget (churnStepOne 100 0 nearBudget) rfl,
    ((footprint_monotone nearBudget 100 0 (by decide) (by decide)).2.1).resolve_right
      (by decide)⟩

/-! ## The claim about bulk delete -/

/-- C4: for every experiment index (in particular those with a phase two), every `uint`
value of `cnt` and every sequence of positions in `[0, cnt-1]` on which the bulk-delete
loop exits: `objectsToDelete`, computed in `double`, equals `floor(deleteFraction × cnt)`
for the exact fraction; the number of slots that went from occupied to empty is exactly
that value; each of them ends as the empty record; every other slot is unchanged;
`totalUsage` has decreased by the sum of the sizes recorded for the freed slots (in
`size_t` arithmetic, and as natural numbers when that sum does not exceed `totalUsage`);
and for experiment 7 at least `floor(0.9 × cnt)` of the slots below `cnt` are empty. -/
theorem bulk_delete_count (no : Nat) (h : no < 8) (s t : State) (ps : List Nat)
    (hcnt : s.cnt < W32) (hps : ∀ p ∈ ps, p ≤ selUpper s.cnt)
    (hrun : bulkDeleteLoop (objectsToDelete no s.cnt) ps (0, s) = some t) :
    objectsToDelete no s.cnt
        = (deleteFractionExact no).1 * s.cnt / (deleteFractionExact no).2 ∧
      (freedSlots s t s.cnt).card = objectsToDelete no s.cnt ∧
      (∀ i ∈ freedSlots s t s.cnt, t.mem i = ⟨0, 0⟩) ∧
      (∀ i, i ∉ freedSlots s t s.cnt → t.mem i = s.mem i) ∧
      (t.totalUsage + freedSize s t s.cnt ≡ s.totalUsage [MOD W64]) ∧
      (freedSize s t s.cnt ≤ s.totalUsage →
        t.totalUsage = s.totalUsage - freedSize s t s.cnt) ∧
      (no = 7 → 9 * s.cnt / 10 ≤ (emptySlots t s.cnt).card) := by
  have heq := objectsToDelete_eq no s.cnt h hcnt
  have hn : objectsToDelete no s.cnt < W32 := by
    unfold objectsToDelete
    exact Nat.mod_lt _ (by rw [W32_eq]; norm_num)
  -- the loop as seen by `bulkDeleteLoop_spec`, with all positions below `cnt`
  have hspec : ∃ qs : List Nat, (∀ q ∈ qs, q < s.cnt) ∧
      bulkDeleteLoop (objectsToDelete no s.cnt) qs (0, s) = some t := by
    rcases Nat.eq_zero_or_pos s.cnt with h0 | h0
    · have hz : objectsToDelete no s.cnt = 0 := by
        rw [heq, h0, Nat.mul_zero, Nat.zero_div]
      rw [hz] at hrun ⊢
      refine ⟨[], by simp, ?_⟩
      cases ps <;> simpa [bulkDeleteLoop] using hrun
    · refine ⟨ps, ?_, hrun⟩
      intro q hq
      have := hps q hq
      unfold selUpper at this
      rw [W32_eq] at this hcnt
      omega
  obtain ⟨qs, hqs, hrun'⟩ := hspec
  obtain ⟨ha, hb, hc, hc', _, _⟩ :=
    bulkDeleteLoop_spec (objectsToDelete no s.cnt) s.cnt hn qs (0, s) t hqs (Nat.zero_le _) hrun'
  simp only [Nat.add_zero] at ha hb hc hc'
  have hfreed : ∀ i ∈ freedSlots s t s.cnt, t.mem i = ⟨0, 0⟩ := by
    intro i hi
    simp only [freedSlots, Finset.mem_filter, Finset.mem_range] at hi
    rcases ha i with h1 | h1
    · exact absurd (h1 ▸ hi.2.1) hi.2.2
    · exact h1.2.1
  have hother : ∀ i, i ∉ freedSlots s t s.cnt → t.mem i = s.mem i := by
    intro i hi
    rcases ha i with h1 | h1
    · exact h1
    · exfalso
      apply hi
      simp only [freedSlots, Finset.mem_filter, Finset.mem_range]
      refine ⟨h1.2.2, h1.1, ?_⟩
      rw [h1.2.1]
      simp [occupied]
  refine ⟨heq, hb, hfreed, hother, hc, fun hle => by have := hc' hle; omega, ?_⟩
  intro h7
  have hsub : freedSlots s t s.cnt ⊆ emptySlots t s.cnt := by
    intro i hi
    simp only [freedSlots, emptySlots, Finset.mem_filter, Finset.mem_range] at hi ⊢
    exact ⟨hi.1, hi.2.2⟩
  have hcard := Finset.card_le_card hsub
  rw [hb, heq, h7] at hcard
  simpa [deleteFractionExact] using hcard

/-- Experiment 7 on a table with two occupied slots, deleting `floor(0.9 × 2) = 1` of
them: C4 at a concrete input. -/
theorem bulk_delete_count_witness :
    objectsToDelete 7 twoSlots.cnt = 1 ∧
      (freedSlots twoSlots (freeSlot 1 twoSlots) twoSlots.cnt).card
        = objectsToDelete 7 twoSlots.cnt ∧
      (freeSlot 1 twoSlots).totalUsage
        = twoSlots.totalUsage - freedSize twoSlots (freeSlot 1 twoSlots) twoSlots.cnt :=
  ⟨by decide,
    (bulk_delete_count 7 (by decide) twoSlots (freeSlot 1 twoSlots) [1] (by decide)
      (by decide) rfl).2.1,
    (bulk_delete_count 7 (by decide) twoSlots (freeSlot 1 twoSlots) [1] (by decide)
      (by decide) rfl).2.2.2.2.2.1 (by decide)⟩

/-! ## Loops as runs of their bodies -/

/-- An exiting phase-one churn loop has run the bodies of a prefix of its draws. -/
theorem churnLoopOne_run :
    ∀ (cs : List (Nat × Nat)) (s t : State), churnLoopOne cs s = some t →
      ∃ k, k ≤ cs.length ∧ t = churnRunOne (cs.take k) s := by
  intro cs
  induction cs with
  | nil =>
    intro s t hr
    by_cases hlt : s.footprint < size50G
    · simp [churnLoopOne, hlt] at hr
    · simp [churnLoopOne, hlt] at hr
      exact ⟨0, by simp, by simp [churnRunOne, hr]⟩
  | cons c cs ih =>
    intro s t hr
    by_cases hlt : s.footprint < size50G
    · simp only [churnLoopOne, hlt, if_true] at hr
      obtain ⟨k, hk, hs⟩ := ih _ _ hr
      exact ⟨k + 1, by simp [hk], by simpa [churnRunOne] using hs⟩
    · simp [churnLoopOne, hlt] at hr
      exact ⟨0, by simp, by simp [churnRunOne, hr]⟩

/-- An exiting phase-two churn loop has run the bodies of a prefix of its draws. -/
theorem churnLoopTwo_run :
    ∀ (cs : List (Nat × Nat)) (s t : State), churnLoopTwo cs s = some t →
      ∃ k, k ≤ cs.length ∧ t = churnRunTwo (cs.take k) s := by
  intro cs
  induction cs with
  | nil =>
    intro s t hr
    by_cases hlt : s.footprint < size50G
    · simp [churnLoopTwo, hlt] at hr
    · simp [churnLoopTwo, hlt] at hr
      exact ⟨0, by simp, by simp [churnRunTwo, hr]⟩
  | cons c cs ih =>
    intro s t hr
    by_cases hlt : s.footprint < size50G
    · simp only [churnLoopTwo, hlt, if_true] at hr
      obtain ⟨k, hk, hs⟩ := ih _ _ hr
      exact ⟨k + 1, by simp [hk], by simpa [churnRunTwo] using hs⟩
    · simp [churnLoopTwo, hlt] at hr
      exact ⟨0, by simp, by simp [churnRunTwo, hr]⟩

/-! ## Recorded sizes -/

theorem RecordedWithin.refl (lo hi : Nat) (s : State) : RecordedWithin lo hi s s :=
  fun _ hne => absurd rfl hne

theorem RecordedWithin.trans {lo hi : Nat} {s t u : State} (h1 : RecordedWithin lo hi s t)
    (h2 : RecordedWithin lo hi t u) : RecordedWithin lo hi s u := by
  intro i hne hocc
  by_cases hut : u.mem i = t.mem i
  · rw [hut] at hne hocc ⊢
    exact h1 i hne hocc
  · exact h2 i hut hocc

/-- Writing a record with a size within the range into one slot. -/
theorem recordedWithin_update {lo hi : Nat} {s t : State} {p : Nat} {r : Record}
    (hm : t.mem = Function.update s.mem p r) (hr : lo ≤ r.size ∧ r.size ≤ hi) :
    RecordedWithin lo hi s t := by
  intro i hne _
  rw [hm] at hne ⊢
  by_cases hip : i = p
  · subst hip
    rw [Function.update_same]
    exact hr
  · rw [Function.update_noteq hip] at hne
    exact absurd rfl hne

/-- Clearing one slot records no size. -/
theorem recordedWithin_clear {lo hi : Nat} {s t : State} {p : Nat}
    (hm : t.mem = Function.update s.mem p ⟨0, 0⟩) : RecordedWithin lo hi s t := by
  intro i hne hocc
  rw [hm] at hne hocc
  by_cases hip : i = p
  · subst hip
    rw [Function.update_same] at hocc
    exact absurd rfl hocc
  · rw [Function.update_noteq hip] at hne
    exact absurd rfl hne

theorem recordedWithin_guardedFree (lo hi pos : Nat) (s : State) :
    RecordedWithin lo hi s (guardedFree pos s) := by
  unfold guardedFree
  split
  · exact recordedWithin_clear (p := pos) rfl
  · exact RecordedWithin.refl lo hi s

theorem recordedWithin_guardedAlloc {lo hi size : Nat} (pos : Nat) (s : State)
    (hsz : lo ≤ size ∧ size ≤ hi) : RecordedWithin lo hi s (guardedAlloc size pos s) := by
  unfold guardedAlloc
  split
  · exact recordedWithin_update (p := pos)
      (r := ⟨(malloc s.heap ((size * 8) % W32)).1, size⟩) rfl hsz
  · exact RecordedWithin.refl lo hi s

theorem recordedWithin_fillStep {lo hi size : Nat} (s : State)
    (hsz : lo ≤ size ∧ size ≤ hi) : RecordedWithin lo hi s (fillStep size s) :=
  recordedWithin_update (p := s.cnt)
    (r := ⟨(malloc s.heap ((size * 8) % W32)).1, size⟩) rfl hsz

theorem recordedWithin_churnStepOne {lo hi size : Nat} (pos : Nat) (s : State)
    (hsz : lo ≤ size ∧ size ≤ hi) : RecordedWithin lo hi s (churnStepOne size pos s) :=
  (recordedWithin_guardedFree lo hi pos s).trans (recordedWithin_guardedAlloc pos _ hsz)

theorem recordedWithin_churnStepTwo {lo hi size : Nat} (pos : Nat) (s : State)
    (hsz : lo ≤ size ∧ size ≤ hi) : RecordedWithin lo hi s (churnStepTwo size pos s) := by
  unfold churnStepTwo
  split
  · exact RecordedWithin.refl lo hi s
  · exact (recordedWithin_guardedFree lo hi pos s).trans (recordedWithin_guardedAlloc pos _ hsz)

/-- A run of bodies that each record sizes within the range records sizes within the
range. -/
theorem recordedWithin_foldl {α : Type} (f : State → α → State) (P : α → Prop)
    (lo hi : Nat) (hstep : ∀ a s, P a → RecordedWithin lo hi s (f s a)) :
    ∀ (l : List α) (s : State), (∀ a ∈ l, P a) → RecordedWithin lo hi s (l.foldl f s) := by
  intro l
  induction l with
  | nil => intro s _; exact RecordedWithin.refl lo hi s
  | cons a l ih =>
    intro s hl
    rw [List.foldl_cons]
    exact (hstep a s (hl a (List.mem_cons_self _ _))).trans
      (ih _ (fun b hb => hl b (List.mem_cons_of_mem _ hb)))

theorem recordedWithin_fillRun (no : Nat) (fs : List Nat) (hfs : ∀ d ∈ fs, InFormer no d)
    (s : State) :
    RecordedWithin (formerSizeRangeLower no) (formerSizeRangeUpper no) s (fillRun fs s) :=
  @recordedWithin_foldl Nat (fun t d => fillStep d t) (InFormer no) _ _
    (fun _ t ha => recordedWithin_fillStep t ha) fs s hfs

theorem recordedWithin_churnRunOne (no : Nat) (cs : List (Nat × Nat))
    (hcs : ∀ c ∈ cs, InFormer no c.1) (s : State) :
    RecordedWithin (formerSizeRangeLower no) (formerSizeRangeUpper no) s
      (churnRunOne cs s) :=
  @recordedWithin_foldl (Nat × Nat) (fun t c => churnStepOne c.1 c.2 t)
    (fun c => InFormer no c.1) _ _
    (fun c t ha => recordedWithin_churnStepOne c.2 t ha) cs s hcs

theorem recordedWithin_churnRunTwo (no : Nat) (cs : List (Nat × Nat))
    (hcs : ∀ c ∈ cs, InLatter no c.1) (s : State) :
    RecordedWithin (latterSizeRangeLower no) (latterSizeRangeUpper no) s
      (churnRunTwo cs s) :=
  @recordedWithin_foldl (Nat × Nat) (fun t c => churnStepTwo c.1 c.2 t)
    (fun c => InLatter no c.1) _ _
    (fun c t ha => recordedWithin_churnStepTwo c.2 t ha) cs s hcs

theorem mem_of_mem_take {α : Type} {l : List α} {k : Nat} {a : α} (h : a ∈ l.take k) :
    a ∈ l :=
  List.mem_of_mem_take h

/-- C11: for every experiment index and every sequence of draws with sizes from the
phase's range, every slot that a fill iteration or a phase-one churn iteration has changed
and left occupied records a size within the former range, and every slot that a phase-two
churn iteration has changed and left occupied records a size within the latter range;
this holds after any number of iterations and at the exit of each loop.  In particular the
sizes recorded are all 100 in phase one of experiments 0, 1, 2 and all 130 in phase two
of experiments 1, 2, whose ranges are degenerate. -/
theorem recorded_sizes_in_range (no : Nat) (fs : List Nat) (cs1 cs2 : List (Nat × Nat))
    (hfs : ∀ d ∈ fs, InFormer no d) (h1 : ∀ c ∈ cs1, InFormer no c.1)
    (h2 : ∀ c ∈ cs2, InLatter no c.1) (s : State) :
    RecordedWithin (formerSizeRangeLower no) (formerSizeRangeUpper no) s (fillRun fs s) ∧
    RecordedWithin (formerSizeRangeLower no) (formerSizeRangeUpper no) s
      (churnRunOne cs1 s) ∧
    RecordedWithin (latterSizeRangeLower no) (latterSizeRangeUpper no) s
      (churnRunTwo cs2 s) ∧
    (∀ t, fillLoop fs s = some t →
      RecordedWithin (formerSizeRangeLower no) (formerSizeRangeUpper no) s t) ∧
    (∀ t, churnLoopOne cs1 s = some t →
      RecordedWithin (formerSizeRangeLower no) (formerSizeRangeUpper no) s t) ∧
    (∀ t, churnLoopTwo cs2 s = some t →
      RecordedWithin (latterSizeRangeLower no) (latterSizeRangeUpper no) s t) ∧
    (no ≤ 2 → RecordedWithin 100 100 s (fillRun fs s) ∧
      RecordedWithin 100 100 s (churnRunOne cs1 s)) ∧
    ((no = 1 ∨ no = 2) → RecordedWithin 130 130 s (churnRunTwo cs2 s)) := by
  have hA := recordedWithin_fillRun no fs hfs s
  have hB := recordedWithin_churnRunOne no cs1 h1 s
  have hC := recordedWithin_churnRunTwo no cs2 h2 s
  refine ⟨hA, hB, hC, ?_, ?_, ?_, ?_, ?_⟩
  · intro t ht
    obtain ⟨k, _, hk, _⟩ := fillLoop_run fs s t ht
    rw [hk]
    exact recordedWithin_fillRun no _ (fun d hd => hfs d (mem_of_mem_take hd)) s
  · intro t ht
    obtain ⟨k, _, hk⟩ := churnLoopOne_run cs1 s t ht
    rw [hk]
    exact recordedWithin_churnRunOne no _ (fun c hc => h1 c (mem_of_mem_take hc)) s
  · intro t ht
    obtain ⟨k, _, hk⟩ := churnLoopTwo_run cs2 s t ht
    rw [hk]
    exact recordedWithin_churnRunTwo no _ (fun c hc => h2 c (mem_of_mem_take hc)) s
  · intro hno
    interval_cases no <;>
      simpa [formerSizeRangeLower, formerSizeRangeUpper] using And.intro hA hB
  · intro hno
    rcases hno with rfl | rfl <;>
      simpa [latterSizeRangeLower, latterSizeRangeUpper] using hC

/-- Experiment 1 from the initial table: two fill iterations, a phase-one churn iteration
and a phase-two churn iteration, with the fixed sizes 100 and 130: C11 at a concrete
input. -/
theorem recorded_sizes_in_range_witness :
    RecordedWithin 100 100 (State.init 0) (fillRun [100, 100] (State.init 0)) ∧
      RecordedWithin 130 130 (State.init 0) (churnRunTwo [(130, 0)] (State.init 0)) :=
  ⟨((recorded_sizes_in_range 1 [100, 100] [(100, 0)] [(130, 0)] (by decide) (by decide)
      (by decide) (State.init 0)).2.2.2.2.2.2.1 (by decide)).1,
    (recorded_sizes_in_range 1 [100, 100] [(100, 0)] [(130, 0)] (by decide) (by decide)
      (by decide) (State.init 0)).2.2.2.2.2.2.2 (Or.inl rfl)⟩

/-! ## Phase-two churn against phase-one churn -/

/-- The guarded release leaves an occupied slot and everything else alone. -/
theorem guardedFree_occupied {s : State} {pos : Nat} (hocc : occupied (s.mem pos)) :
    guardedFree pos s = s := by
  unfold guardedFree
  rw [if_neg hocc]

/-- C12 as stated fails: in the state bulk delete leaves behind, with slot 1 emptied, the
draw (130, 1) makes the phase-one iteration allocate into the empty slot and raise
`footprint` to 130, while the phase-two iteration skips the slot and changes nothing. -/
theorem churn_two_differs_from_one :
    1 ≤ selUpper afterDelete.cnt ∧
      (churnStepOne 130 1 afterDelete).footprint = 130 ∧
      (churnStepTwo 130 1 afterDelete).footprint = 0 ∧
      churnStepTwo 130 1 afterDelete ≠ churnStepOne 130 1 afterDelete := by
  refine ⟨by decide, by decide, by decide, ?_⟩
  intro h
  have h1 : (churnStepTwo 130 1 afterDelete).footprint = 0 := by decide
  rw [h] at h1
  revert h1
  decide

/-- C12 (amended): for every state, drawn size and drawn position, when the chosen slot
is occupied one phase-two churn iteration produces exactly the state that one phase-one
churn iteration produces on the same inputs, and when the chosen slot is empty the
phase-two iteration leaves the state unchanged. -/
theorem churn_two_same_on_occupied (s : State) (size pos : Nat) :
    (occupied (s.mem pos) → churnStepTwo size pos s = churnStepOne size pos s) ∧
      (¬ occupied (s.mem pos) → churnStepTwo size pos s = s) := by
  constructor
  · intro hocc
    unfold churnStepTwo churnStepOne
    rw [if_neg hocc]
  · intro hemp
    have hd : (s.mem pos).data = 0 := by
      unfold occupied at hemp
      exact not_not.mp hemp
    unfold churnStepTwo
    rw [if_pos hd]

/-- The occupied slot 0 and the empty slot 1 of `afterDelete`: the amended C12 at a
concrete input. -/
theorem churn_two_same_on_occupied_witness :
    churnStepTwo 130 0 afterDelete = churnStepOne 130 0 afterDelete ∧
      churnStepTwo 130 1 afterDelete = afterDelete :=
  ⟨(churn_two_same_on_occupied afterDelete 130 0).1 (by decide),
    (churn_two_same_on_occupied afterDelete 130 1).2 (by decide)⟩

/-! ## `totalUsage` against the table -/

/-- When slot 0 is the only occupied slot, the sum over the occupied slots is its size. -/
theorem occupiedSum_single {s : State} (h : ∀ i, occupied (s.mem i) ↔ i = 0) {n : Nat}
    (hn : 0 < n) : occupiedSum s n = (s.mem 0).size := by
  have hf : (Finset.range n).filter (fun i => occupied (s.mem i)) = {0} := by
    ext i
    simp only [Finset.mem_filter, Finset.mem_range, Finset.mem_singleton, h]
    constructor
    · exact fun hi => hi.2
    · intro hi; subst hi; exact ⟨hn, rfl⟩
  unfold occupiedSum
  rw [hf, Finset.sum_singleton]

theorem oneSlot_occupied (i : Nat) : occupied (oneSlot.mem i) ↔ i = 0 := by
  by_cases hi : i = 0
  · subst hi; simp [oneSlot, fillStep, State.init, occupied, malloc]
  · simp [oneSlot, fillStep, State.init, occupied, Function.update_noteq hi, Record.empty, hi]

theorem oneSlot_churned_occupied (i : Nat) :
    occupied ((churnStepOne 50 0 oneSlot).mem i) ↔ i = 0 := by
  have hstep : churnStepOne 50 0 oneSlot = allocSlot 50 0 oneSlot := by
    have hocc : occupied (oneSlot.mem 0) := (oneSlot_occupied 0).2 rfl
    unfold churnStepOne
    rw [guardedFree_occupied hocc]
    unfold guardedAlloc
    rw [if_pos (by decide)]
  rw [hstep]
  by_cases hi : i = 0
  · subst hi; simp [allocSlot, occupied, malloc]
  · have := oneSlot_occupied i
    simp only [allocSlot, Function.update_noteq hi]
    rw [this]

/-- C13 (the code does not do what the claim says): `oneSlot` has the slot invariant and
`totalUsage = 100` equal to the sum over the occupied slots of the whole table.  The draw
(50, 0) makes a churn iteration of either phase overwrite the occupied slot 0 without
releasing it: afterwards `totalUsage = 150` while the sum over the occupied slots is 50. -/
theorem usage_does_not_track_table :
    SlotInv oneSlot ∧ oneSlot.totalUsage = 100 ∧ occupiedSum oneSlot memLen = 100 ∧
      0 ≤ selUpper oneSlot.cnt ∧
      (churnStepOne 50 0 oneSlot).totalUsage = 150 ∧
      occupiedSum (churnStepOne 50 0 oneSlot) memLen = 50 ∧
      churnStepTwo 50 0 oneSlot = churnStepOne 50 0 oneSlot := by
  have hlen : 0 < memLen := by rw [memLen_eq]; norm_num
  refine ⟨?_, by decide, ?_, Nat.zero_le _, by decide, ?_, ?_⟩
  · exact (slotInv_init 0).update (p := 0) (r := ⟨1, 100⟩) rfl (by simp)
  · rw [occupiedSum_single oneSlot_occupied hlen]
    decide
  · rw [occupiedSum_single oneSlot_churned_occupied hlen]
    decide
  · unfold churnStepTwo churnStepOne
    rw [if_neg ((oneSlot_occupied 0).2 rfl)]

/-! ## What a churn iteration releases and allocates -/

/-- The guarded release never logs a released block: it only ever calls `free` on the
null handle. -/
theorem guardedFree_freed (pos : Nat) (s : State) :
    (guardedFree pos s).heap.freed = s.heap.freed := by
  unfold guardedFree
  split
  · rename_i hd
    simp [freeSlot, free, hd]
  · rfl

/-- The guarded release keeps every occupied slot as it is. -/
theorem guardedFree_keeps (pos : Nat) (s : State) (i : Nat) (hocc : occupied (s.mem i)) :
    (guardedFree pos s).mem i = s.mem i := by
  unfold guardedFree
  split
  · rename_i hd
    have hip : i ≠ pos := fun h => hocc (h ▸ hd)
    exact freeSlot_mem_other s hip
  · rfl

theorem guardedAlloc_freed (size pos : Nat) (s : State) :
    (guardedAlloc size pos s).heap.freed = s.heap.freed := by
  unfold guardedAlloc
  split <;> rfl

/-- The guarded allocation keeps occupied slots occupied. -/
theorem guardedAlloc_occupied (size pos : Nat) (s : State) (i : Nat)
    (hocc : occupied (s.mem i)) : occupied ((guardedAlloc size pos s).mem i) := by
  unfold guardedAlloc
  split
  · by_cases hip : i = pos
    · subst hip
      simp [allocSlot, occupied, malloc]
    · simp only [allocSlot, Function.update_noteq hip]
      exact hocc
  · exact hocc

/-- C14: a churn iteration of either phase never turns an occupied slot into an empty one
and never passes a block to `free` (the log of released blocks is unchanged).  When the
chosen slot is occupied and `totalUsage + size < size10G`, the slot's record becomes the
newly allocated block with the size drawn, the size drawn is added to `totalUsage` with
nothing subtracted, and the old block is still not released. -/
theorem churn_never_frees_live (s : State) (size pos : Nat) :
    (∀ i, occupied (s.mem i) → occupied ((churnStepOne size pos s).mem i)) ∧
    (∀ i, occupied (s.mem i) → occupied ((churnStepTwo size pos s).mem i)) ∧
    (churnStepOne size pos s).heap.freed = s.heap.freed ∧
    (churnStepTwo size pos s).heap.freed = s.heap.freed ∧
    (occupied (s.mem pos) → add64 s.totalUsage size < size10G →
      (churnStepOne size pos s).mem pos = ⟨(malloc s.heap ((size * 8) % W32)).1, size⟩ ∧
      (churnStepOne size pos s).totalUsage = add64 s.totalUsage size ∧
      (churnStepTwo size pos s).mem pos = ⟨(malloc s.heap ((size * 8) % W32)).1, size⟩ ∧
      (churnStepTwo size pos s).totalUsage = add64 s.totalUsage size) := by
  have hone : ∀ i, occupied (s.mem i) → occupied ((churnStepOne size pos s).mem i) := by
    intro i hocc
    unfold churnStepOne
    apply guardedAlloc_occupied
    rw [guardedFree_keeps pos s i hocc]
    exact hocc
  have hfreed : (churnStepOne size pos s).heap.freed = s.heap.freed := by
    unfold churnStepOne
    rw [guardedAlloc_freed, guardedFree_freed]
  have htwo : ∀ (P : State → Prop), P s → P (churnStepOne size pos s) →
      P (churnStepTwo size pos s) := by
    intro P h0 h1
    unfold churnStepTwo
    split
    · exact h0
    · exact h1
  refine ⟨hone, ?_, hfreed, ?_, ?_⟩
  · intro i hocc
    exact htwo (fun t => occupied (t.mem i)) hocc (hone i hocc)
  · exact htwo (fun t => t.heap.freed = s.heap.freed) rfl hfreed
  · intro hocc hlt
    have hstep : churnStepOne size pos s = allocSlot size pos s := by
      unfold churnStepOne
      rw [guardedFree_occupied hocc]
      unfold guardedAlloc
      rw [if_pos hlt]
    have h2 : churnStepTwo size pos s = churnStepOne size pos s := by
      unfold churnStepTwo churnStepOne
      rw [if_neg hocc]
    rw [h2, hstep]
    refine ⟨?_, rfl, ?_, rfl⟩ <;> simp [allocSlot]

/-- The draw (50, 0) on `oneSlot`, whose slot 0 holds block 1 with size 100: the record
becomes block 2 with size 50, `totalUsage` rises from 100 to 150, nothing is released:
C14 at a concrete input. -/
theorem churn_never_frees_live_witness :
    (churnStepOne 50 0 oneSlot).mem 0 = ⟨2, 50⟩ ∧
      (churnStepOne 50 0 oneSlot).totalUsage = 150 ∧
      (churnStepOne 50 0 oneSlot).heap.freed = [] :=
  ⟨((churn_never_frees_live oneSlot 50 0).2.2.2.2 (by decide) (by decide)).1,
    ((churn_never_frees_live oneSlot 50 0).2.2.2.2 (by decide) (by decide)).2.1,
    (churn_never_frees_live oneSlot 50 0).2.2.1⟩

/-! ## The low-water test -/

/-- The guarded allocation calls `malloc` exactly when its test passes, and then adds the
size to both counters. -/
theorem guardedAlloc_allocates (size pos : Nat) (s : State) :
    (Allocates s (guardedAlloc size pos s) ↔ add64 s.totalUsage size < size10G) ∧
      (add64 s.totalUsage size < size10G →
        (guardedAlloc size pos s).totalUsage = add64 s.totalUsage size ∧
        (guardedAlloc size pos s).footprint = add64 s.footprint size) ∧
      (¬ add64 s.totalUsage size < size10G → guardedAlloc size pos s = s) := by
  unfold guardedAlloc Allocates
  by_cases hc : add64 s.totalUsage size < size10G
  · simp [hc, allocSlot, malloc]
  · simp [hc]

/-- C15 as stated fails: `afterDelete` has the slot invariant and `totalUsage + 130` is
below `size10G`, yet the phase-two iteration with the draw (130, 1), which picks the empty
slot 1, does not allocate: it returns the state unchanged. -/
theorem churn_two_skips_allocation :
    SlotInv afterDelete ∧ 1 ≤ selUpper afterDelete.cnt ∧
      afterDelete.totalUsage + 130 < size10G ∧
      churnStepTwo 130 1 afterDelete = afterDelete ∧
      ¬ Allocates afterDelete (churnStepTwo 130 1 afterDelete) := by
  refine ⟨?_, by decide, by decide, rfl, by decide⟩
  have h1 : SlotInv (fillStep 50 (State.init 0)) :=
    (slotInv_init 0).update (p := 0) (r := ⟨1, 50⟩) rfl (by simp)
  have h2 : SlotInv twoSlots := h1.update (p := 1) (r := ⟨2, 50⟩) rfl (by simp)
  exact h2.update (p := 1) (r := ⟨0, 0⟩) rfl (by simp)

/-- C15 (amended): on a state with the slot invariant, a phase-one churn iteration
allocates if and only if `totalUsage + size < size10G` (in `size_t` arithmetic), and a
phase-two churn iteration allocates if and only if the chosen slot is occupied and
`totalUsage + size < size10G`; an allocating iteration adds the size drawn to both
`totalUsage` and `footprint`, any other iteration leaves both unchanged; consequently, in
either phase, `totalUsage < size10G` before the iteration gives `totalUsage < size10G`
after it. -/
theorem churn_respects_low_water (s : State) (size pos : Nat) (hinv : SlotInv s) :
    (Allocates s (churnStepOne size pos s) ↔ add64 s.totalUsage size < size10G) ∧
    (Allocates s (churnStepTwo size pos s) ↔
      (occupied (s.mem pos) ∧ add64 s.totalUsage size < size10G)) ∧
    (Allocates s (churnStepOne size pos s) →
      (churnStepOne size pos s).totalUsage = add64 s.totalUsage size ∧
      (churnStepOne size pos s).footprint = add64 s.footprint size) ∧
    (Allocates s (churnStepTwo size pos s) →
      (churnStepTwo size pos s).totalUsage = add64 s.totalUsage size ∧
      (churnStepTwo size pos s).footprint = add64 s.footprint size) ∧
    (¬ Allocates s (churnStepOne size pos s) →
      (churnStepOne size pos s).totalUsage = s.totalUsage ∧
      (churnStepOne size pos s).footprint = s.footprint) ∧
    (¬ Allocates s (churnStepTwo size pos s) →
      (churnStepTwo size pos s).totalUsage = s.totalUsage ∧
      (churnStepTwo size pos s).footprint = s.footprint) ∧
    (s.totalUsage < size10G →
      (churnStepOne size pos s).totalUsage < size10G ∧
      (churnStepTwo size pos s).totalUsage < size10G) := by
  have hg : guardedFree pos s = s := by
    by_cases hd : (s.mem pos).data = 0
    · exact guardedFree_empty hinv hd
    · exact guardedFree_occupied hd
  have hone : churnStepOne size pos s = guardedAlloc size pos s := by
    unfold churnStepOne
    rw [hg]
  obtain ⟨hiff, hyes, hno⟩ := guardedAlloc_allocates size pos s
  have hself : ¬ Allocates s s := by
    unfold Allocates
    omega
  have hA1 : Allocates s (churnStepOne size pos s) ↔ add64 s.totalUsage size < size10G := by
    rw [hone]; exact hiff
  have hY1 : Allocates s (churnStepOne size pos s) →
      (churnStepOne size pos s).totalUsage = add64 s.totalUsage size ∧
      (churnStepOne size pos s).footprint = add64 s.footprint size := by
    intro ha
    rw [hone]
    exact hyes (hA1.1 ha)
  have hN1 : ¬ Allocates s (churnStepOne size pos s) →
      (churnStepOne size pos s).totalUsage = s.totalUsage ∧
      (churnStepOne size pos s).footprint = s.footprint := by
    intro ha
    rw [hone, hno (fun hc => ha (hA1.2 hc))]
    exact ⟨rfl, rfl⟩
  have hL1 : s.totalUsage < size10G → (churnStepOne size pos s).totalUsage < size10G := by
    intro hlt
    by_cases ha : Allocates s (churnStepOne size pos s)
    · rw [(hY1 ha).1]; exact hA1.1 ha
    · rw [(hN1 ha).1]; exact hlt
  by_cases hocc : occupied (s.mem pos)
  · have htwo : churnStepTwo size pos s = churnStepOne size pos s := by
      unfold churnStepTwo churnStepOne
      rw [if_neg hocc]
    rw [htwo]
    exact ⟨hA1, by rw [hA1]; exact ⟨fun h => ⟨hocc, h⟩, fun h => h.2⟩, hY1, hY1, hN1, hN1,
      fun hlt => ⟨hL1 hlt, hL1 hlt⟩⟩
  · have htwo : churnStepTwo size pos s = s := by
      unfold churnStepTwo
      rw [if_pos (not_not.mp hocc)]
    rw [htwo]
    exact ⟨hA1, ⟨fun h => absurd h hself, fun h => absurd h.1 hocc⟩, hY1,
      fun h => absurd h hself, hN1, fun _ => ⟨rfl, rfl⟩, fun hlt => ⟨hL1 hlt, hlt⟩⟩

/-- The initial table with the draw (100, 0): the phase-one iteration allocates and
leaves `totalUsage = 100 < size10G`: the amended C15 at a concrete input. -/
theorem churn_respects_low_water_witness :
    Allocates (State.init 1) (churnStepOne 100 0 (State.init 1)) ∧
      (churnStepOne 100 0 (State.init 1)).totalUsage < size10G :=
  ⟨(churn_respects_low_water (State.init 1) 100 0 (slotInv_init 1)).1.2 (by decide),
    ((churn_respects_low_water (State.init 1) 100 0 (slotInv_init 1)).2.2.2.2.2.2
      (by decide)).1⟩

/-! ## Claims about the fill iteration and the state after the fill loop -/

/-- Both counters stay equal along any run of fill iterations started with equal
counters. -/
theorem fillRun_counters :
    ∀ (fs : List Nat) (s : State), s.footprint = s.totalUsage →
      (fillRun fs s).footprint = (fillRun fs s).totalUsage := by
  intro fs
  induction fs with
  | nil => intro s hs; exact hs
  | cons d fs ih =>
    intro s hs
    have : fillRun (d :: fs) s = fillRun fs (fillStep d s) := rfl
    rw [this]
    apply ih
    simp only [fillStep, hs]

/-- C16: in every experiment, a fill iteration (entered under the loop test
`totalUsage < size10G`, with `footprint = totalUsage` and a cursor that does not wrap
around as a `uint`) with a size from the former range stores a block and the size drawn
in the slot at the cursor, advances the cursor by one, changes no other slot, and adds
exactly the size drawn to `totalUsage` and to `footprint`; `totalUsage` strictly
increases, and `footprint = totalUsage` again afterwards.  Along every run of fill
iterations started by `StartExperiment` the two counters are equal. -/
theorem fill_step_effect (no : Nat) (h : no < 8) (size : Nat) (hsz : InFormer no size)
    (s : State) (hguard : s.totalUsage < size10G) (hfp : s.footprint = s.totalUsage)
    (hcnt : s.cnt + 1 < W32) :
    ((fillStep size s).mem s.cnt).size = size ∧
    occupied ((fillStep size s).mem s.cnt) ∧
    (fillStep size s).cnt = s.cnt + 1 ∧
    (∀ i, i ≠ s.cnt → (fillStep size s).mem i = s.mem i) ∧
    (fillStep size s).totalUsage = s.totalUsage + size ∧
    (fillStep size s).footprint = s.footprint + size ∧
    s.totalUsage < (fillStep size s).totalUsage ∧
    (fillStep size s).footprint = (fillStep size s).totalUsage ∧
    (∀ (fs : List Nat) (s0 : State),
      (fillRun fs (enter s0)).footprint = (fillRun fs (enter s0)).totalUsage) := by
  have hb := former_bounds h
  obtain ⟨hlo, hhi⟩ := hsz
  rw [size10G_eq] at hguard
  have htu : add64 s.totalUsage size = s.totalUsage + size := by
    apply add64_small; rw [W64_eq]; omega
  have hfp' : add64 s.footprint size = s.footprint + size := by
    rw [hfp]; exact htu
  refine ⟨?_, ?_, ?_, ?_, ?_, ?_, ?_, ?_, ?_⟩
  · simp [fillStep]
  · simp [fillStep, occupied, malloc]
  · simp only [fillStep]
    exact Nat.mod_eq_of_lt hcnt
  · intro i hi
    simp only [fillStep, Function.update_noteq hi]
  · simp only [fillStep, htu]
  · simp only [fillStep, hfp']
  · simp only [fillStep, htu]; omega
  · simp only [fillStep, htu, hfp', hfp]
  · intro fs s0
    exact fillRun_counters fs (enter s0) rfl

/-- The first fill iteration of experiment 0 from the initial state: C16 at a concrete
input. -/
theorem fill_step_effect_witness :
    ((fillStep 100 (State.init 0)).mem 0).size = 100 ∧
      (fillStep 100 (State.init 0)).cnt = 1 ∧
      (fillStep 100 (State.init 0)).totalUsage = 100 ∧
      (fillStep 100 (State.init 0)).footprint = 100 :=
  ⟨(fill_step_effect 0 (by decide) 100 (by decide) (State.init 0) (by decide) rfl
      (by decide)).1,
    (fill_step_effect 0 (by decide) 100 (by decide) (State.init 0) (by decide) rfl
      (by decide)).2.2.1,
    (fill_step_effect 0 (by decide) 100 (by decide) (State.init 0) (by decide) rfl
      (by decide)).2.2.2.2.1,
    (fill_step_effect 0 (by decide) 100 (by decide) (State.init 0) (by decide) rfl
      (by decide)).2.2.2.2.2.1⟩

/-- C17: in every experiment, every state the fill loop (cursor starting at 0) exits in
satisfies `PostFill`; and in every state satisfying `PostFill` a phase-one churn
iteration with a size from the former range and a position in `[0, cnt-1]` leaves the
whole state (table, `totalUsage`, `footprint`) unchanged, so that the loop test
`footprint < size50G` is still true. -/
theorem churn_one_noop_after_fill (no : Nat) (h : no < 8) :
    (∀ fs : List Nat, (∀ d ∈ fs, InFormer no d) → ∀ s, fillLoop fs (State.init 0) = some s →
      PostFill s) ∧
    (∀ (s : State) (size pos : Nat), PostFill s → InFormer no size → pos < s.cnt →
      churnStepOne size pos s = s ∧ (churnStepOne size pos s).mem = s.mem ∧
      (churnStepOne size pos s).totalUsage = s.totalUsage ∧
      (churnStepOne size pos s).footprint = s.footprint ∧
      (churnStepOne size pos s).footprint < size50G) := by
  have hb := former_bounds h
  constructor
  · intro fs hfs s hs
    obtain ⟨hi, hge⟩ := fill_exit h hfs hs
    refine ⟨fun i hlt => (hi.occ i hlt).1, hge, hi.usage_eq, ?_⟩
    have := hi.over
    rw [size10G_eq] at this
    rw [size50G_eq]
    omega
  · intro s size pos hpf hsz hpos
    obtain ⟨hocc, hge, hfp, hlt⟩ := hpf
    have hstep : churnStepOne size pos s = s := by
      unfold churnStepOne
      rw [guardedFree_occupied (hocc pos hpos)]
      unfold guardedAlloc
      have hs2 := hsz.2
      rw [size50G_eq] at hlt
      have hadd : add64 s.totalUsage size = s.totalUsage + size := by
        apply add64_small; rw [W64_eq]; omega
      rw [hadd, if_neg (by omega)]
    rw [hstep]
    exact ⟨rfl, rfl, rfl, rfl, by rw [hfp]; exact hlt⟩

/-- The state `fullSlot` with the draw (100, 0) of experiment 0: C17 at a concrete
input. -/
theorem churn_one_noop_after_fill_witness :
    churnStepOne 100 0 fullSlot = fullSlot ∧
      (churnStepOne 100 0 fullSlot).footprint < size50G :=
  ⟨((churn_one_noop_after_fill 0 (by decide)).2 fullSlot 100 0
      ⟨by decide, by decide, rfl, by decide⟩ (by decide) (by decide)).1,
    ((churn_one_noop_after_fill 0 (by decide)).2 fullSlot 100 0
      ⟨by decide, by decide, rfl, by decide⟩ (by decide) (by decide)).2.2.2.2⟩

/-- C18: for every experiment index and every sequence of sizes from the former range the
fill loop, started with the cursor at 0, exits (given enough draws), and at its exit
`size10G ≤ totalUsage < size10G + formerSizeRangeUpper no`, `footprint = totalUsage`, and
`totalUsage` is the sum of the sizes recorded in the slots `0..cnt-1`. -/
theorem fill_overshoot_bound (no : Nat) (h : no < 8) (fs : List Nat)
    (hfs : ∀ d ∈ fs, InFormer no d) :
    (214748365 ≤ fs.length → ∃ s, fillLoop fs (State.init 0) = some s) ∧
      ∀ s, fillLoop fs (State.init 0) = some s →
        size10G ≤ s.totalUsage ∧ s.totalUsage < size10G + formerSizeRangeUpper no ∧
          s.footprint = s.totalUsage ∧
          s.totalUsage = ∑ i in Finset.range s.cnt, (s.mem i).size := by
  refine ⟨fun hlen => fill_terminates h fs hfs (State.init 0) rfl (enough_draws h hlen), ?_⟩
  intro s hs
  obtain ⟨hi, hge⟩ := fill_exit h hfs hs
  exact ⟨hge, hi.over, hi.usage_eq, hi.sum⟩

/-- Experiment 0 with the fixed size 100: C18 at a concrete input. -/
theorem fill_overshoot_bound_witness :
    (214748365 ≤ (List.replicate 214748365 100).length →
        ∃ s, fillLoop (List.replicate 214748365 100) (State.init 0) = some s) ∧
      ∀ s, fillLoop (List.replicate 214748365 100) (State.init 0) = some s →
        size10G ≤ s.totalUsage ∧ s.totalUsage < size10G + formerSizeRangeUpper 0 ∧
          s.footprint = s.totalUsage ∧
          s.totalUsage = ∑ i in Finset.range s.cnt, (s.mem i).size :=
  fill_overshoot_bound 0 (by decide) (List.replicate 214748365 100)
    (replicate_inFormer_zero _)

/-! ## Occupancy under phase-two churn -/

/-- A phase-two churn iteration keeps the set of occupied slots. -/
theorem churnStepTwo_occupied (size pos : Nat) (s : State) (i : Nat) :
    occupied ((churnStepTwo size pos s).mem i) ↔ occupied (s.mem i) := by
  unfold churnStepTwo
  split
  · exact Iff.rfl
  · rename_i hd
    rw [guardedFree_occupied hd]
    unfold guardedAlloc
    split
    · by_cases hip : i = pos
      · subst hip
        simp only [allocSlot, Function.update_same]
        exact ⟨fun _ => hd, fun _ => by simp [occupied, malloc]⟩
      · simp only [allocSlot, Function.update_noteq hip]
    · exact Iff.rfl

/-- Any number of phase-two churn iterations keeps the set of occupied slots. -/
theorem churnRunTwo_occupied :
    ∀ (cs : List (Nat × Nat)) (s : State) (i : Nat),
      occupied ((churnRunTwo cs s).mem i) ↔ occupied (s.mem i) := by
  intro cs
  induction cs with
  | nil => intro s i; exact Iff.rfl
  | cons c cs ih =>
    intro s i
    have : churnRunTwo (c :: cs) s = churnRunTwo cs (churnStepTwo c.1 c.2 s) := rfl
    rw [this, ih, churnStepTwo_occupied]

/-- C19: a phase-two churn iteration that picks an empty slot changes nothing; every
phase-two churn iteration, every run of such iterations and every exiting phase-two churn
loop leave the set of occupied slot positions as it was, so a slot that is empty when
phase-two churn starts (emptied by bulk delete or never filled) is empty ever after. -/
theorem churn_two_never_refills (s : State) (size pos : Nat) (cs : List (Nat × Nat)) :
    (¬ occupied (s.mem pos) → churnStepTwo size pos s = s) ∧
    (∀ i, occupied ((churnStepTwo size pos s).mem i) ↔ occupied (s.mem i)) ∧
    (∀ i, occupied ((churnRunTwo cs s).mem i) ↔ occupied (s.mem i)) ∧
    (∀ t, churnLoopTwo cs s = some t → ∀ i, occupied (t.mem i) ↔ occupied (s.mem i)) ∧
    (∀ i, ¬ occupied (s.mem i) → ¬ occupied ((churnRunTwo cs s).mem i)) := by
  refine ⟨?_, churnStepTwo_occupied size pos s, churnRunTwo_occupied cs s, ?_, ?_⟩
  · intro hemp
    unfold churnStepTwo
    rw [if_pos (not_not.mp hemp)]
  · intro t ht i
    obtain ⟨k, _, hk⟩ := churnLoopTwo_run cs s t ht
    rw [hk]
    exact churnRunTwo_occupied _ s i
  · intro i hemp hocc
    exact hemp ((churnRunTwo_occupied cs s i).1 hocc)

/-- The state `afterDelete`, whose slot 1 bulk delete has emptied, under the draws
(130, 1), (130, 0), (130, 1): C19 at a concrete input. -/
theorem churn_two_never_refills_witness :
    churnStepTwo 130 1 afterDelete = afterDelete ∧
      ¬ occupied ((churnRunTwo [(130, 1), (130, 0), (130, 1)] afterDelete).mem 1) :=
  ⟨(churn_two_never_refills afterDelete 130 1 [(130, 1), (130, 0), (130, 1)]).1 (by decide),
    (churn_two_never_refills afterDelete 130 1 [(130, 1), (130, 0), (130, 1)]).2.2.2.2 1
      (by decide)⟩

end MemFrag
